import Mathlib

/-!
Shallow embedding of the bcap/book-crawler repository (Go) used to check the
natural-language specification against the code.

Conventions of the embedding:
* Go `time.Time` is modelled as a logical clock `Nat`; `0` is Go's zero time.
  `time.Now()` is modelled by an explicit, strictly increasing clock threaded
  through the run state, which captures the monotonicity the code relies on.
* Go maps are modelled as association lists `List (String × α)`; a read of a
  missing key yields the zero value, exactly as in Go (`StateChange{}` for the
  state map, `nil` i.e. `none` for the books map).
* Pointers `*book.Book` are identified by their URL: the spec makes URL the
  sole identity of a vertex and the memory backend keys its map by URL.
* `int32`/`int` fields are modelled as `Int` (no claim depends on overflow).
* Fallible Go functions returning `error` become `Except Err _`.
-/

namespace BookCrawler

/-- Error values surfaced by the modelled code paths. -/
inductive Err where
  | bookNotFound (url : String)
  | fetchFailed (url : String)
  | noAlsoReadLink
  | badURL
  | invalidTransition (url : String)
  | outOfFuel
  deriving DecidableEq, Repr

/-- `storage.State` from src/storage/interface.go:
`NotCrawled (0)`, `BeingCrawled (1)`, `Crawled (2)`, `Linked (3)`. -/
inductive State where
  | notCrawled
  | beingCrawled
  | crawled
  | linked
  deriving DecidableEq, Repr

/-- Numeric value of a `storage.State`, as declared in the Go constants. -/
def State.toNat : State → Nat
  | .notCrawled => 0
  | .beingCrawled => 1
  | .crawled => 2
  | .linked => 3

/-- `storage.StateChange`: the `{When, State}` pair persisted per URL.
`when = 0` is Go's zero time (the zero value returned for absent URLs). -/
structure StateChange where
  when : Nat
  state : State
  deriving DecidableEq, Repr

/-- The Go zero value `storage.StateChange{}`. -/
def StateChange.zero : StateChange := { when := 0, state := .notCrawled }

theorem stateChange_ext (a b : StateChange) (h1 : a.when = b.when)
    (h2 : a.state = b.state) : a = b := by
  cases a; cases b; simp_all

/-- `book.Edge` from src/book/struct.go. `From` and `To` are `*Book`
pointers in Go; they are identified here by the books' URLs. -/
structure Edge where
  fromURL : String
  toURL : String
  priority : Int
  deriving DecidableEq, Repr

/-- `book.Book` from src/book/struct.go. -/
structure Book where
  title : String := ""
  author : String := ""
  authorURL : String := ""
  rating : Int := 0
  ratingsTotal : Int := 0
  ratings1 : Int := 0
  ratings2 : Int := 0
  ratings3 : Int := 0
  ratings4 : Int := 0
  ratings5 : Int := 0
  reviews : Int := 0
  pages : Int := 0
  genres : List String := []
  url : String := ""
  alsoRead : List Edge := []
  deriving DecidableEq, Repr

/-- `book.New(url)`: a fresh book with only the URL set. -/
def Book.new (url : String) : Book := { url := url }

/-- Association-list lookup, modelling a Go map read that distinguishes
presence (`ok`): returns `none` when the key is absent. -/
def lookupA {α : Type} (l : List (String × α)) (k : String) : Option α :=
  match l with
  | [] => none
  | (k', v) :: rest => if k' = k then some v else lookupA rest k

/-- Association-list insert/replace, modelling a Go map write. -/
def setA {α : Type} (l : List (String × α)) (k : String) (v : α) :
    List (String × α) :=
  match l with
  | [] => [(k, v)]
  | (k', v') :: rest =>
    if k' = k then (k, v) :: rest else (k', v') :: setA rest k v

theorem lookupA_setA_self {α : Type} (l : List (String × α)) (k : String)
    (v : α) : lookupA (setA l k v) k = some v := by
  induction l with
  | nil => simp [lookupA, setA]
  | cons hd tl ih =>
    obtain ⟨k', v'⟩ := hd
    by_cases h : k' = k <;> simp [lookupA, setA, h, ih]

theorem lookupA_setA_ne {α : Type} (l : List (String × α)) (k k' : String)
    (v : α) (h : k ≠ k') : lookupA (setA l k v) k' = lookupA l k' := by
  induction l with
  | nil => simp [lookupA, setA, h]
  | cons hd tl ih =>
    obtain ⟨k0, v0⟩ := hd
    by_cases h0 : k0 = k
    · subst h0
      simp [lookupA, setA, h]
    · simp only [setA, if_neg h0, lookupA]
      by_cases h1 : k0 = k' <;> simp [h1, ih]

/-- `storage/memory.Storage` (src/storage/memory/memory.go): a map of
URL → Book and a map of URL → StateChange (mutexes are irrelevant to the
sequential model). -/
structure MemStorage where
  books : List (String × Book)
  state : List (String × StateChange)
  deriving DecidableEq, Repr

/-- The storage produced by `memory.Storage.Initialize`. -/
def MemStorage.empty : MemStorage := { books := [], state := [] }

/-- `memory.Storage.GetBookState`: `s.state[url]`, the zero value when
absent. -/
def MemStorage.getBookState (s : MemStorage) (url : String) : StateChange :=
  (lookupA s.state url).getD StateChange.zero

/-- `memory.Storage.SetBookState` (src/storage/memory/memory.go lines
41-57): compare-and-swap on the full `StateChange` pair.  `now` models the
`time.Now()` taken on the success path.  Returns the updated storage, the
returned `StateChange` and the `bool` result; the Go `error` is always nil
here. -/
def MemStorage.setBookState (s : MemStorage) (now : Nat) (url : String)
    (previous : StateChange) (new : State) :
    MemStorage × StateChange × Bool :=
  let previousSC := s.getBookState url
  if previous.state ≠ previousSC.state ∨ previous.when ≠ previousSC.when then
    (s, StateChange.zero, false)
  else
    let newSC : StateChange := { when := now, state := new }
    ({ s with state := setA s.state url newSC }, newSC, true)

/-- `memory.Storage.GetBook`: `s.books[url]` (`nil` = `none` when absent);
the depth argument is ignored by the memory backend. -/
def MemStorage.getBook (s : MemStorage) (url : String) : Option Book :=
  lookupA s.books url

/-- `memory.Storage.SetBook`: `s.books[url] = book`, an unconditional
replacement of the stored record. -/
def MemStorage.setBook (s : MemStorage) (url : String) (b : Book) :
    MemStorage :=
  { s with books := setA s.books url b }

/-- The comparison `sort.Slice` uses in `memory.Storage.LinkBook`:
ascending edge priority. -/
def edgeLE (a b : Edge) : Bool := a.priority ≤ b.priority

/-- The `sort.Slice(b.AlsoRead, lessFn)` call in `LinkBook`, modelled as a
sort by ascending priority (Go's sort is unstable; on the runs the claims
touch, relative order of equal priorities is not observable). -/
def sortEdges (l : List Edge) : List Edge :=
  List.insertionSort (fun a b => edgeLE a b) l

/-- `memory.Storage.LinkBook` (src/storage/memory/memory.go lines 74-96):
errors when the `from` book is absent, silently does nothing when the `to`
book is absent, and otherwise unconditionally appends the new edge and
re-sorts by priority. -/
def MemStorage.linkBook (s : MemStorage) (url relatedURL : String)
    (priority : Int) : Except Err MemStorage :=
  match lookupA s.books url with
  | none => .error (.bookNotFound url)
  | some b =>
    match lookupA s.books relatedURL with
    | none => .ok s
    | some _ =>
      let edge : Edge :=
        { fromURL := url, toURL := relatedURL, priority := priority }
      let b' := { b with alsoRead := sortEdges (b.alsoRead ++ [edge]) }
      .ok { s with books := setA s.books url b' }

/-- A `(:Book)` node of the graph database backend (src/storage/interface.go,
neo4j implementation).  Properties are optional: a node created by the
CAS path carries only `url`, `crawlState` and `crawlStateChanged`, while a
node merged by `SetBook` carries only the book attributes. -/
structure NeoNode where
  url : String
  title : Option String := none
  rating : Option Int := none
  ratings : Option Int := none
  reviews : Option Int := none
  crawlState : Option State := none
  crawlStateChanged : Option Nat := none
  deriving DecidableEq, Repr

/-- The graph database contents relevant to the storage contract:
`(:Book)` nodes keyed by `url`, `(:Person)` nodes keyed by `url` carrying a
`name`, `AUTHORED` relationships and `ALSO_READ {priority}` relationships.
Relationships are merged set-wise, as Cypher `MERGE` does. -/
structure NeoDB where
  nodes : List (String × NeoNode)
  persons : List (String × String)
  authored : List (String × String)
  alsoRead : List (String × String × Int)
  deriving DecidableEq, Repr

/-- The empty graph database. -/
def NeoDB.empty : NeoDB :=
  { nodes := [], persons := [], authored := [], alsoRead := [] }

/-- `neo4j.Storage.SetBookState` (src/storage/interface.go lines 346-395).
When the node is absent it is `CREATE`d with the new state — regardless of
`previous`.  When present, the Cypher `MATCH (b:Book {url: $url,
crawlState: $oldState})` compares only `previous.State`; the
`crawlStateChanged` timestamp is not part of the match.  The returned
`bool` is `!reflect.DeepEqual(sc, StateChange{})` on the Go side. -/
def NeoDB.setBookState (db : NeoDB) (now : Nat) (url : String)
    (previous : StateChange) (new : State) : NeoDB × StateChange × Bool :=
  match lookupA db.nodes url with
  | none =>
    let node : NeoNode :=
      { url := url, crawlState := some new, crawlStateChanged := some now }
    let sc : StateChange := { when := now, state := new }
    ({ db with nodes := setA db.nodes url node }, sc,
      decide (sc ≠ StateChange.zero))
  | some node =>
    if node.crawlState = some previous.state then
      let node' :=
        { node with crawlState := some new, crawlStateChanged := some now }
      let sc : StateChange := { when := now, state := new }
      ({ db with nodes := setA db.nodes url node' }, sc,
        decide (sc ≠ StateChange.zero))
    else
      (db, StateChange.zero, false)

/-- `neo4j.Storage.SetBook` (src/storage/interface.go lines 467-492):
`MERGE` the book node keyed by `book.URL` and `SET` only `title`,
`rating`, `ratings` and `reviews`; `MERGE` the person node and its
`AUTHORED` relationship.  `crawlState`, `crawlStateChanged` and the
`ALSO_READ` relationships are not mentioned by the query. -/
def NeoDB.setBook (db : NeoDB) (b : Book) : NeoDB :=
  let node := (lookupA db.nodes b.url).getD { url := b.url }
  let node' :=
    { node with
      title := some b.title, rating := some b.rating,
      ratings := some b.ratingsTotal, reviews := some b.reviews }
  let authored' :=
    if (b.authorURL, b.url) ∈ db.authored then db.authored
    else db.authored ++ [(b.authorURL, b.url)]
  { db with
    nodes := setA db.nodes b.url node'
    persons := setA db.persons b.authorURL b.author
    authored := authored' }

/-- `neo4j.Storage.LinkBook` (src/storage/interface.go lines 494-508):
`MATCH` both endpoints then `MERGE (b)-[r:ALSO_READ {priority: $priority}]->(o)`.
If either endpoint is absent the `MATCH` yields no rows and nothing
happens (nil error); the `MERGE` is keyed on the full triple
`(from, to, priority)`. -/
def NeoDB.linkBook (db : NeoDB) (url relatedURL : String) (priority : Int) :
    NeoDB :=
  match lookupA db.nodes url, lookupA db.nodes relatedURL with
  | some _, some _ =>
    if (url, relatedURL, priority) ∈ db.alsoRead then db
    else { db with alsoRead := db.alsoRead ++ [(url, relatedURL, priority)] }
  | _, _ => db

/-- Is `pat` a prefix of `l`? (plain executable helper). -/
def isPrefixL : List Char → List Char → Bool
  | [], _ => true
  | _ :: _, [] => false
  | a :: as, b :: bs => a = b && isPrefixL as bs

/-- Does `l` contain `pat` as a contiguous sublist? -/
def hasSubList (pat : List Char) : List Char → Bool
  | [] => pat.isEmpty
  | c :: rest => isPrefixL pat (c :: rest) || hasSubList pat rest

/-- Go `strings.Contains(s, pat)`. -/
def strHasSub (s pat : String) : Bool := hasSubList pat.toList s.toList

/-- One `a[itemprop=url]` anchor found on the similar-books page by
`Crawler.extractRelatedBookURLs` (src/unnamed/part_005 lines 256-291).
`href = none` models a node without an `href` attribute. -/
structure Anchor where
  href : Option String
  deriving DecidableEq, Repr

/-- One step of the `Each` callback in `extractRelatedBookURLs`: stop
appending once `len(urls) == maxReadAlso`; skip anchors without `href`;
skip URLs `AbsoluteURL` fails on (`resolve` returns `none`, modelling the
net/url-based resolution as an oracle); skip URLs not containing
`/book/show/`.  Skipped anchors do not append and hence do not consume an
index. -/
def extractStep (resolve : String → Option String) (maxReadAlso : Int)
    (urls : List String) (a : Anchor) : List String :=
  if (urls.length : Int) = maxReadAlso then urls
  else
    match a.href with
    | none => urls
    | some href =>
      match resolve href with
      | none => urls
      | some abs =>
        if strHasSub abs "/book/show/" then urls ++ [abs] else urls

/-- `Crawler.extractRelatedBookURLs`, given the anchors of the fetched
document: fold of `extractStep` starting from the empty slice. -/
def extractRelatedURLs (resolve : String → Option String) (maxReadAlso : Int)
    (anchors : List Anchor) : List String :=
  anchors.foldl (extractStep resolve maxReadAlso) []

/-- Knobs of the retrying HTTP client that crawler options may set
(src/unnamed/part_006); `none` means the library default is kept.
`semCapacity` is the weighted semaphore capacity. -/
structure ClientCfg where
  semCapacity : Int := 1
  retryMax : Option Int := none
  retryWaitMin : Option Int := none
  retryWaitMax : Option Int := none
  deriving DecidableEq, Repr

/-- The `crawler.Crawler` configuration fields (src/unnamed/part_006). -/
structure Crawler where
  client : ClientCfg := {}
  maxDepth : Int := 3
  maxReadAlso : Int := 5
  minNumRatings : Int := -1
  maxNumRatings : Int := -1
  minRating : Int := -1
  maxRating : Int := -1
  maxParallelism : Int := 1
  deriving DecidableEq, Repr

/-- `crawler.CrawlerOption`. -/
def CrawlerOption := Crawler → Crawler

/-- `crawler.NewCrawler` (src/unnamed/part_006 lines 40-62): defaults then
option application in order. -/
def NewCrawler (options : List CrawlerOption) : Crawler :=
  options.foldl (fun c o => o c) {}

def WithMaxDepth (v : Int) : CrawlerOption := fun c => { c with maxDepth := v }

def WithMaxReadAlso (v : Int) : CrawlerOption :=
  fun c => { c with maxReadAlso := v }

def WithMinNumRatings (v : Int) : CrawlerOption :=
  fun c => { c with minNumRatings := v }

def WithMaxNumRatings (v : Int) : CrawlerOption :=
  fun c => { c with maxNumRatings := v }

def WithMinRating (v : Int) : CrawlerOption :=
  fun c => { c with minRating := v }

def WithMaxRating (v : Int) : CrawlerOption :=
  fun c => { c with maxRating := v }

def WithMaxParallelism (v : Int) : CrawlerOption :=
  fun c =>
    { c with maxParallelism := v, client := { c.client with semCapacity := v } }

def WithRequestMaxRetries (v : Int) : CrawlerOption :=
  fun c => { c with client := { c.client with retryMax := some v } }

def WithRequestMaxRetryWait (v : Int) : CrawlerOption :=
  fun c => { c with client := { c.client with retryWaitMax := some v } }

def WithRequestMinRetryWait (v : Int) : CrawlerOption :=
  fun c => { c with client := { c.client with retryWaitMin := some v } }

/-- The CLI flag values parsed by src/cmd/crawler/main.go, with the
defaults declared in `parser()` (lines 50-65).  Durations are in
nanoseconds. -/
structure Flags where
  maxDepth : Int := 3
  maxReadAlso : Int := 5
  minNumRatings : Int := -1
  maxNumRatings : Int := -1
  minRating : Int := -1
  maxRating : Int := -1
  maxParallelism : Int := 10
  maxRequestRetries : Int := 4
  minRequestRetryWait : Int := 1000000000
  maxRequestRetryWait : Int := 15000000000
  deriving DecidableEq, Repr

/-- The exact option list `run` passes to `crawler.NewCrawler`
(src/cmd/crawler/main.go lines 76-86), in source order.  Note line 79
passes `minNumRatings` to `WithMinNumRatings`, line 80 passes `minRating`
to `WithMinRating`, and line 81 passes `maxRating` to `WithMinRating`;
`WithMaxNumRatings` and `WithMaxRating` are never called. -/
def runWiring (f : Flags) : Crawler :=
  NewCrawler
    [WithMaxDepth f.maxDepth,
     WithMaxReadAlso f.maxReadAlso,
     WithMinNumRatings f.minNumRatings,
     WithMinRating f.minRating,
     WithMinRating f.maxRating,
     WithMaxParallelism f.maxParallelism,
     WithRequestMaxRetries f.maxRequestRetries,
     WithRequestMinRetryWait f.minRequestRetryWait,
     WithRequestMaxRetryWait f.maxRequestRetryWait]

/-- What `book.Build` extracts from a fetched book page (the Extractor is
an external collaborator; its output is oracle data of the world). -/
structure BookAttrs where
  title : String := ""
  author : String := ""
  authorURL : String := ""
  rating : Int := -1
  ratingsTotal : Int := -1
  ratings1 : Int := -1
  ratings2 : Int := -1
  ratings3 : Int := -1
  ratings4 : Int := -1
  ratings5 : Int := -1
  reviews : Int := -1
  pages : Int := -1
  genres : List String := []
  deriving DecidableEq, Repr

/-- `book.New(url)` followed by `book.Build(b, doc)`: the attributes are
written onto the fresh book; `URL` and `AlsoRead` are untouched by
`Build`. -/
def buildBook (url : String) (a : BookAttrs) : Book :=
  { title := a.title, author := a.author, authorURL := a.authorURL,
    rating := a.rating, ratingsTotal := a.ratingsTotal,
    ratings1 := a.ratings1, ratings2 := a.ratings2, ratings3 := a.ratings3,
    ratings4 := a.ratings4, ratings5 := a.ratings5,
    reviews := a.reviews, pages := a.pages, genres := a.genres,
    url := url, alsoRead := [] }

/-- The ratings/rating filter of `Crawler.handleNotCrawled`
(src/unnamed/part_005 lines 126-129): a bound is active iff it is
non-negative. -/
def failsFilter (c : Crawler) (b : Book) : Bool :=
  (decide (0 ≤ c.minNumRatings) && decide (b.ratingsTotal < c.minNumRatings)) ||
  (decide (0 ≤ c.maxNumRatings) && decide (b.ratingsTotal > c.maxNumRatings)) ||
  (decide (0 ≤ c.minRating) && decide (b.rating < c.minRating)) ||
  (decide (0 ≤ c.maxRating) && decide (b.rating > c.maxRating))

/-- A parsed book page: the extracted attributes plus the
`a.actionLink.seeMoreLink` href (the "readers also enjoyed" link), `none`
when the element is missing. -/
structure Doc where
  attrs : BookAttrs
  alsoReadHref : Option String
  deriving DecidableEq, Repr

/-- The crawler's external collaborators, as oracles: `pages` is fetching
and parsing a book page, `similar` is fetching the similar-books page and
collecting its anchors, `resolve base href` is `myhttp.AbsoluteURL`
(net/url based).  `none` models a fetch/parse/resolution failure. -/
structure World where
  pages : String → Option Doc
  similar : String → Option (List Anchor)
  resolve : String → String → Option String

/-- The mutable state of one `Crawl` run: the storage, the logical clock
(each successful state write takes a fresh instant), the two atomic
progress counters, and — for stating reachability of intermediate storage
states — the trace of storage snapshots after every storage write. -/
structure RunState where
  storage : MemStorage
  clock : Nat
  checked : Nat
  crawled : Nat
  trace : List MemStorage

/-- One `Storage.SetBookState` call: on success the write happens at the
current clock instant and the clock advances (modelling monotonic
`time.Now()`); on CAS failure nothing changes. -/
def casStep (st : RunState) (url : String) (previous : StateChange)
    (new : State) : RunState × StateChange × Bool :=
  let r := st.storage.setBookState st.clock url previous new
  if r.2.2 then
    ({ st with
        storage := r.1
        clock := st.clock + 1
        trace := st.trace ++ [r.1] }, r.2.1, true)
  else
    (st, r.2.1, false)

/-- One `Storage.SetBook` call. -/
def setBookStep (st : RunState) (url : String) (b : Book) : RunState :=
  let s' := st.storage.setBook url b
  { st with storage := s', trace := st.trace ++ [s'] }

/-- One `Storage.LinkBook` call. -/
def linkBookStep (st : RunState) (url relatedURL : String) (priority : Int) :
    Except Err RunState :=
  match st.storage.linkBook url relatedURL priority with
  | .error e => .error e
  | .ok s' => .ok { st with storage := s', trace := st.trace ++ [s'] }

/-- The child loop of `Crawler.crawlAlsoRead` (src/unnamed/part_005 lines
219-237): for each extracted URL with its 0-based position, crawl the
child, then `LinkBook(parent, child, idx)`.  The Go code runs the children
in an errgroup; the model executes them in list order, which is one legal
schedule, with the errgroup's first-error semantics. -/
def crawlChildren (recur : String → Nat → Nat → RunState → Except Err RunState)
    (bookURL : String) (depth : Nat) :
    List (Nat × String) → RunState → Except Err RunState
  | [], st => .ok st
  | (idx, linkURL) :: rest, st =>
    match recur linkURL (depth + 1) idx st with
    | .error e => .error e
    | .ok st' =>
      match linkBookStep st' bookURL linkURL (idx : Int) with
      | .error e => .error e
      | .ok st'' => crawlChildren recur bookURL depth rest st''

/-- `Crawler.crawlAlsoRead` (src/unnamed/part_005 lines 211-240): fetch
the similar-books page, extract up to `maxReadAlso` URLs, then run the
child loop. -/
def crawlAlsoRead (cfg : Crawler) (w : World)
    (recur : String → Nat → Nat → RunState → Except Err RunState)
    (bookURL similarBooksURL : String) (depth : Nat) (st : RunState) :
    Except Err RunState :=
  match w.similar similarBooksURL with
  | none => .error (.fetchFailed similarBooksURL)
  | some anchors =>
    let toCrawl :=
      extractRelatedURLs (w.resolve similarBooksURL) cfg.maxReadAlso anchors
    crawlChildren recur bookURL depth toCrawl.enum st

/-- The body of `Crawler.handleCrawled` once the document is at hand
(src/unnamed/part_005 lines 166-191): require the "readers also enjoyed"
link, resolve it, expand children when `depth < maxDepth`, then CAS to
`Linked` from the `StateChange` this worker obtained when claiming the
vertex. -/
def handleCrawledDoc (cfg : Crawler) (w : World)
    (recur : String → Nat → Nat → RunState → Except Err RunState)
    (url : String) (prevState : StateChange) (depth : Nat)
    (st : RunState) (doc : Doc) : Except Err RunState :=
  match doc.alsoReadHref with
  | none => .error .noAlsoReadLink
  | some href =>
    match w.resolve url href with
    | none => .error .badURL
    | some alsoReadLink =>
      match (if (depth : Int) < cfg.maxDepth then
          crawlAlsoRead cfg w recur url alsoReadLink depth st
        else .ok st) with
      | .error e => .error e
      | .ok st1 =>
        match casStep st1 url prevState .linked with
        | (st2, _, true) => .ok st2
        | (_, _, false) => .error (.invalidTransition url)

/-- `Crawler.handleCrawled` (src/unnamed/part_005 lines 157-192): reuse
the already-parsed document when one is passed (the fall-through from
`handleNotCrawled`), otherwise fetch it, then process it. -/
def handleCrawled (cfg : Crawler) (w : World) (_start : Nat)
    (recur : String → Nat → Nat → RunState → Except Err RunState)
    (url : String) (prevState : StateChange) (depth _index : Nat)
    (st : RunState) (doc? : Option Doc) : Except Err RunState :=
  match doc? with
  | some d => handleCrawledDoc cfg w recur url prevState depth st d
  | none =>
    match w.pages url with
    | none => .error (.fetchFailed url)
    | some d => handleCrawledDoc cfg w recur url prevState depth st d

/-- `Crawler.handleNotCrawled` (src/unnamed/part_005 lines 116-155):
fetch, build the book, apply the ratings filter (silently dropping the
vertex, which stays `BeingCrawled`), `SetBook`, CAS to `Crawled`, then
fall through to `handleCrawled` reusing the parsed document. -/
def handleNotCrawled (cfg : Crawler) (w : World) (start : Nat)
    (recur : String → Nat → Nat → RunState → Except Err RunState)
    (url : String) (prevState : StateChange) (depth index : Nat)
    (st : RunState) : Except Err RunState :=
  match w.pages url with
  | none => .error (.fetchFailed url)
  | some doc =>
    let b := buildBook url doc.attrs
    if failsFilter cfg b then .ok st
    else
      let st1 := setBookStep st url b
      match casStep st1 url prevState .crawled with
      | (st2, sc, true) =>
        handleCrawled cfg w start recur url sc depth index
          { st2 with crawled := st2.crawled + 1 } (some doc)
      | (_, _, false) => .error (.invalidTransition url)

/-- The child loop of `Crawler.handlePreviouslyLinked`: re-crawl each
stored edge target at `depth+1` (no `LinkBook` on this path). -/
def linkedChildren (recur : String → Nat → Nat → RunState → Except Err RunState)
    (depth : Nat) : List (Nat × Edge) → RunState → Except Err RunState
  | [], st => .ok st
  | (idx, e) :: rest, st =>
    match recur e.toURL (depth + 1) idx st with
    | .error err => .error err
    | .ok st' => linkedChildren recur depth rest st'

/-- `Crawler.handlePreviouslyLinked` (src/unnamed/part_005 lines 194-209):
read the vertex's stored edges and crawl each target at `depth+1`.  The Go
code dereferences the returned `*Book` unconditionally; a `Linked` vertex
without a stored book would panic there, modelled as an error. -/
def handlePreviouslyLinked
    (recur : String → Nat → Nat → RunState → Except Err RunState)
    (url : String) (_prevState : StateChange) (depth _index : Nat)
    (st : RunState) : Except Err RunState :=
  match st.storage.getBook url with
  | none => .error (.bookNotFound url)
  | some b => linkedChildren recur depth b.alsoRead.enum st

/-- `Crawler.crawl` (src/unnamed/part_005 lines 64-114): depth bound,
`checked` counter, state read, the `When`-after-`start` fence, then the
three CAS-guarded dispatch branches.  `fuel` only bounds the recursion
depth; the run entry supplies more fuel than `maxDepth` admits, so the
`outOfFuel` error is unreachable on modelled runs. -/
def crawlGo (cfg : Crawler) (w : World) (start : Nat) :
    Nat → String → Nat → Nat → RunState → Except Err RunState
  | 0, _, _, _, _ => .error .outOfFuel
  | fuel + 1, url, depth, index, st0 =>
    if (depth : Int) > cfg.maxDepth then .ok st0
    else
      let st := { st0 with checked := st0.checked + 1 }
      let sc := st.storage.getBookState url
      if start < sc.when then .ok st
      else if sc.state = .crawled then
        match casStep st url sc .crawled with
        | (st', sc', true) =>
          handleCrawled cfg w start (crawlGo cfg w start fuel) url sc' depth
            index st' none
        | (st', _, false) => .ok st'
      else if sc.state = .linked then
        match casStep st url sc .linked with
        | (st', sc', true) =>
          handlePreviouslyLinked (crawlGo cfg w start fuel) url sc' depth
            index st'
        | (st', _, false) => .ok st'
      else
        match casStep st url sc .beingCrawled with
        | (st', sc', true) =>
          handleNotCrawled cfg w start (crawlGo cfg w start fuel) url sc'
            depth index st'
        | (st', _, false) => .ok st'

/-- `Crawler.Crawl` (src/unnamed/part_005 lines 20-45): record `start`,
then run `crawl(url, 0, 0)`.  The initial clock is `start + 1`: every
instant the storage takes during the run is strictly after `start`. -/
def CrawlRun (cfg : Crawler) (w : World) (url : String) (s0 : MemStorage)
    (start : Nat) : Except Err RunState :=
  crawlGo cfg w start (cfg.maxDepth.toNat + 2) url 0 0
    { storage := s0, clock := start + 1, checked := 0, crawled := 0,
      trace := [s0] }

/-!
`book.CollectByDepth` (src/book/collect.go lines 36-63).  The Go function
walks the in-memory pointer graph; vertices are identified here by URL and
the pointer graph by its adjacency function (the `AlsoRead` target lists
in order).  The recursion state is the pair `(depthMap, maxDepth)`.
-/

/-- The recursive closure inside `CollectByDepth`: raise `maxDepth`,
min-relax the vertex's recorded depth, and expand children only on the
first visit (`if has { return }`).  `fuel` bounds the recursion; the
function is total on every graph because only first visits recurse, so any
`fuel` larger than the vertex count is enough. -/
def cbdGo (adj : String → List String) :
    Nat → String → Nat → List (String × Nat) × Nat →
    List (String × Nat) × Nat
  | 0, _, _, acc => acc
  | fuel + 1, v, depth, (dm, md) =>
    let md' := max md depth
    match lookupA dm v with
    | some cur => (if depth < cur then setA dm v depth else dm, md')
    | none =>
      (adj v).foldl (fun acc c => cbdGo adj fuel c (depth + 1) acc)
        (setA dm v depth, md')

/-- `CollectByDepth`'s filled `depthMap` and `maxDepth` after
`recurse(root, 0)`. -/
def collectByDepthMap (adj : String → List String) (root : String)
    (fuel : Nat) : List (String × Nat) × Nat :=
  cbdGo adj fuel root 0 ([], 0)

/-- `CollectByDepth`'s result: `booksByDepth[d]` collects the vertices
recorded at depth `d`, for `d = 0 .. maxDepth`.  (Go iterates the map in
unspecified order; the inner lists are sets, modelled here in `depthMap`
entry order.) -/
def collectByDepth (adj : String → List String) (root : String)
    (fuel : Nat) : List (List String) :=
  (List.range ((collectByDepthMap adj root fuel).2 + 1)).map
    (fun d =>
      ((collectByDepthMap adj root fuel).1.filter
        (fun p => p.2 = d)).map Prod.fst)

/-- `HasPathLen adj root v n`: the pointer graph has a directed path of
exactly `n` edges from `root` to `v`.  The minimum depth of `v` is the
least such `n`. -/
inductive HasPathLen (adj : String → List String) (root : String) :
    String → Nat → Prop
  | refl : HasPathLen adj root root 0
  | snoc {v c : String} {n : Nat} :
      HasPathLen adj root v n → c ∈ adj v → HasPathLen adj root c (n + 1)

/-! ## Claims about the storage backends (C1, C2, C8) -/

/-- The `u` node stored as `{BeingCrawled, when 5}`. -/
def c1node : NeoNode :=
  { url := "u", crawlState := some .beingCrawled, crawlStateChanged := some 5 }

/-- A graph-db state used to exercise `SetBookState`: vertex `u` stored as
`{BeingCrawled, when 5}`. -/
def c1db : NeoDB :=
  { nodes := [("u", c1node)], persons := [], authored := [], alsoRead := [] }

/-- C1: the claim states that `SetBookState` succeeds iff the stored
`StateChange` equals `previous` in BOTH state and timestamp, for both
backends.  Refutation for the graph-database backend: with `u` stored at
`{BeingCrawled, when 5}`, a CAS whose witness carries `when 3` — equal in
state, different in timestamp — nevertheless succeeds. -/
theorem C1_counterexample :
    (c1db.setBookState 7 "u" { when := 3, state := .beingCrawled }
        .crawled).2.2 = true
    ∧ (lookupA c1db.nodes "u").map NeoNode.crawlStateChanged
        = some (some 5)
    ∧ (3 : Nat) ≠ 5 := by
  refine ⟨by decide, by decide, by decide⟩

/-- C1 (amended): the in-memory backend's `SetBookState` is an atomic CAS
on the full `(state, when)` witness: it succeeds iff the stored
`StateChange` equals `previous` in both fields, on success stores and
returns `{new, now}` with `true`, and on mismatch returns the zero value
with `false` (and a nil error).  The graph-database backend compares only
the `State` component — its Cypher match ignores `crawlStateChanged` — and
when the node is absent it creates it and succeeds regardless of
`previous`. -/
theorem C1_theorem :
    (∀ (s : MemStorage) (now : Nat) (url : String) (previous : StateChange)
        (new : State),
      ((s.setBookState now url previous new).2.2 = true ↔
        previous = s.getBookState url)
      ∧ (previous = s.getBookState url →
          s.setBookState now url previous new =
            ({ s with state := setA s.state url { when := now, state := new } },
              { when := now, state := new }, true))
      ∧ (previous ≠ s.getBookState url →
          s.setBookState now url previous new = (s, StateChange.zero, false)))
    ∧ (∀ (db : NeoDB) (now : Nat) (url : String) (previous : StateChange)
        (new : State), 0 < now →
        ((db.setBookState now url previous new).2.2 = true ↔
          lookupA db.nodes url = none ∨
            ∃ node, lookupA db.nodes url = some node ∧
              node.crawlState = some previous.state)) := by
  constructor
  · intro s now url previous new
    by_cases h : previous = s.getBookState url
    · have hcond : ¬ (previous.state ≠ (s.getBookState url).state ∨
          previous.when ≠ (s.getBookState url).when) := by
        rw [h]; simp
      refine ⟨?_, fun _ => ?_, fun hne => absurd h hne⟩
      · simp only [MemStorage.setBookState]
        rw [if_neg hcond]
        simp [h]
      · simp only [MemStorage.setBookState]
        rw [if_neg hcond]
    · have hcond : previous.state ≠ (s.getBookState url).state ∨
          previous.when ≠ (s.getBookState url).when := by
        by_contra hc
        push_neg at hc
        exact h (stateChange_ext _ _ hc.2 hc.1)
      refine ⟨?_, fun heq => absurd heq h, fun _ => ?_⟩
      · simp only [MemStorage.setBookState]
        rw [if_pos hcond]
        simp [h]
      · simp only [MemStorage.setBookState]
        rw [if_pos hcond]
  · intro db now url previous new hnow
    have hzero : ({ when := now, state := new } : StateChange) ≠
        StateChange.zero := by
      intro heq
      have : now = 0 := congrArg StateChange.when heq
      omega
    unfold NeoDB.setBookState
    cases hn : lookupA db.nodes url with
    | none => simp [hn, hzero]
    | some node =>
      by_cases hs : node.crawlState = some previous.state
      · simp [hn, hs, hzero]
      · simp [hn, hs]

/-- C1 witness: the amended characterizations applied at concrete inputs
(a fresh URL in each backend, CAS from the zero witness). -/
theorem C1_witness :
    (MemStorage.empty.setBookState 1 "u" StateChange.zero
        .beingCrawled).2.2 = true
    ∧ (NeoDB.empty.setBookState 1 "u" StateChange.zero
        .beingCrawled).2.2 = true := by
  constructor
  · exact (C1_theorem.1 MemStorage.empty 1 "u" StateChange.zero
      .beingCrawled).1.mpr (by decide)
  · exact (C1_theorem.2 NeoDB.empty 1 "u" StateChange.zero .beingCrawled
      (by decide)).mpr (Or.inl rfl)

/-- The pre-existing edge `A → B [priority 0]`. -/
def edgeAB0 : Edge := { fromURL := "A", toURL := "B", priority := 0 }

/-- The duplicate edge `A → B [priority 1]`. -/
def edgeAB1 : Edge := { fromURL := "A", toURL := "B", priority := 1 }

/-- The stored book `A` carrying the edge `A → B [0]`. -/
def bookA0 : Book := { url := "A", alsoRead := [edgeAB0] }

/-- Memory storage holding books `A` and `B` and an existing edge
`A → B [priority 0]`. -/
def c2store : MemStorage :=
  { books := [("A", bookA0), ("B", Book.new "B")], state := [] }

/-- A graph database holding nodes `A` and `B` and the existing edge
`A → B [priority 0]`. -/
def c2db : NeoDB :=
  { nodes := [("A", { url := "A" }), ("B", { url := "B" })], persons := [], authored := [], alsoRead := [("A", "B", 0)] }

/-- C2: the claim states `LinkBook` is a no-op when an edge with the same
`(from, to)` already exists, in both backends.  Refutation for both: with
`A → B [0]` stored, `LinkBook(A, B, 1)` appends a second `A → B` edge in
the in-memory backend, and in the graph-database backend the `MERGE` —
keyed on the full `(from, to, priority)` triple — also creates a second
`A → B` relationship instead of preserving the existing one. -/
theorem C2_counterexample :
    c2store.linkBook "A" "B" 1 =
      .ok { books := [("A", { url := "A", alsoRead := [edgeAB0, edgeAB1] }), ("B", Book.new "B")], state := [] }
    ∧ ((c2store.getBook "A").map
        (fun b => (b.alsoRead.filter (fun e => e.toURL = "B")).length))
        = some 1
    ∧ c2db.alsoRead = [("A", "B", 0)]
    ∧ (c2db.linkBook "A" "B" 1).alsoRead =
        [("A", "B", 0), ("A", "B", 1)] := by
  refine ⟨rfl, by decide, by decide, by decide⟩

/-- C2 (amended): the in-memory `LinkBook` appends unconditionally when
both endpoints exist — each call adds one more `(from, to)` edge, so
duplicate `(From, To)` edges are not prevented and the existing edge's
priority is not what dedupes; it errors when `from` is absent and silently
does nothing when `to` is absent.  The graph-database `LinkBook` merges
keyed on the full `(from, to, priority)` triple — an identical call is a
no-op, but a duplicate `(from, to)` with a different priority adds a
second edge — and does nothing unless both endpoints exist. -/
theorem C2_theorem :
    (∀ (s : MemStorage) (url rel : String) (p : Int) (b x : Book),
      lookupA s.books url = some b → lookupA s.books rel = some x →
      ∃ s', s.linkBook url rel p = .ok s' ∧
        ∃ b', lookupA s'.books url = some b' ∧
          (b'.alsoRead.filter (fun e => e.toURL = rel)).length =
            (b.alsoRead.filter (fun e => e.toURL = rel)).length + 1)
    ∧ (∀ (s : MemStorage) (url rel : String) (p : Int),
        lookupA s.books url = none →
        s.linkBook url rel p = .error (.bookNotFound url))
    ∧ (∀ (s : MemStorage) (url rel : String) (p : Int) (b : Book),
        lookupA s.books url = some b → lookupA s.books rel = none →
        s.linkBook url rel p = .ok s)
    ∧ (∀ (db : NeoDB) (url rel : String) (p : Int),
        (db.linkBook url rel p).linkBook url rel p = db.linkBook url rel p)
    ∧ (∀ (db : NeoDB) (url rel : String) (p : Int),
        lookupA db.nodes url = none ∨ lookupA db.nodes rel = none →
        db.linkBook url rel p = db)
    ∧ (∀ (db : NeoDB) (url rel : String) (p p0 : Int) (nu nr : NeoNode),
        lookupA db.nodes url = some nu → lookupA db.nodes rel = some nr →
        (url, rel, p0) ∈ db.alsoRead → (url, rel, p) ∉ db.alsoRead →
        (db.linkBook url rel p).alsoRead = db.alsoRead ++ [(url, rel, p)]
        ∧ ((db.linkBook url rel p).alsoRead.filter
            (fun t => decide (t.1 = url) && decide (t.2.1 = rel))).length =
          (db.alsoRead.filter
            (fun t => decide (t.1 = url) &&
              decide (t.2.1 = rel))).length + 1) := by
  refine ⟨?_, ?_, ?_, ?_, ?_, ?_⟩
  · intro s url rel p b x hb hx
    simp only [MemStorage.linkBook, hb, hx]
    refine ⟨_, rfl, _, lookupA_setA_self _ _ _, ?_⟩
    have hperm : List.Perm
        (sortEdges (b.alsoRead ++
          [{ fromURL := url, toURL := rel, priority := p }]))
        (b.alsoRead ++ [{ fromURL := url, toURL := rel, priority := p }]) :=
      List.perm_insertionSort _ _
    have hlen := (hperm.filter (fun e => decide (e.toURL = rel))).length_eq
    simp only [hlen, List.filter_append]
    simp
  · intro s url rel p h
    simp [MemStorage.linkBook, h]
  · intro s url rel p b hb h
    simp [MemStorage.linkBook, hb, h]
  · intro db url rel p
    unfold NeoDB.linkBook
    cases hu : lookupA db.nodes url with
    | none => simp [hu]
    | some nu =>
      cases hr : lookupA db.nodes rel with
      | none => simp [hu, hr]
      | some nr =>
        by_cases hm : (url, rel, p) ∈ db.alsoRead
        · simp [hu, hr, hm]
        · simp [hu, hr, hm]
  · intro db url rel p h
    unfold NeoDB.linkBook
    rcases h with h | h
    · simp [h]
    · cases hu : lookupA db.nodes url <;> simp [hu, h]
  · intro db url rel p p0 nu nr hu hr hp0 hpnot
    simp only [NeoDB.linkBook, hu, hr]
    rw [if_neg hpnot]
    refine ⟨rfl, ?_⟩
    simp [List.filter_append]

/-- C2 witness: the amended behaviours applied at concrete inputs: the
duplicate-append on `c2store`, the graph-db no-op on a database without
the endpoints, and the graph-db second `A → B` relationship created by a
different-priority call on `c2db`. -/
theorem C2_witness :
    (∃ s', c2store.linkBook "A" "B" 0 = .ok s' ∧
      ∃ b', lookupA s'.books "A" = some b' ∧
        (b'.alsoRead.filter (fun e => e.toURL = "B")).length =
          (bookA0.alsoRead.filter (fun e => e.toURL = "B")).length + 1)
    ∧ NeoDB.empty.linkBook "A" "B" 0 = NeoDB.empty
    ∧ ((c2db.linkBook "A" "B" 1).alsoRead =
          c2db.alsoRead ++ [("A", "B", 1)]
        ∧ ((c2db.linkBook "A" "B" 1).alsoRead.filter
            (fun t => decide (t.1 = "A") && decide (t.2.1 = "B"))).length =
          (c2db.alsoRead.filter
            (fun t => decide (t.1 = "A") &&
              decide (t.2.1 = "B"))).length + 1) := by
  refine ⟨?_, ?_, ?_⟩
  · exact C2_theorem.1 c2store "A" "B" 0 bookA0 (Book.new "B") rfl rfl
  · exact C2_theorem.2.2.2.2.1 NeoDB.empty "A" "B" 0 (Or.inl rfl)
  · exact C2_theorem.2.2.2.2.2 c2db "A" "B" 1 0 { url := "A" }
      { url := "B" } rfl rfl (by decide) (by decide)

/-- Memory storage where `A` has a stored book with one outgoing edge and
a crawl state. -/
def c8store : MemStorage :=
  { books := [("A", bookA0), ("B", Book.new "B")], state := [("A", { when := 2, state := .crawled })] }

/-- C8: the claim states `SetBook` leaves the URL's existing edges
unchanged in both backends.  Refutation for the in-memory backend:
`SetBook` replaces the whole stored record, so `A`'s existing edge list is
replaced by the fresh book's empty one. -/
theorem C8_counterexample :
    ((c8store.setBook "A" (Book.new "A")).getBook "A").map Book.alsoRead
        = some []
    ∧ (c8store.getBook "A").map Book.alsoRead = some [edgeAB0] := by
  refine ⟨by decide, by decide⟩

/-- C8 (amended): `SetBook` never touches the crawl state in either
backend, and leaves every other URL's record unchanged; the
graph-database backend also leaves all `ALSO_READ` edges and every node's
`crawlState`/`crawlStateChanged` untouched (a true frame condition), but
the in-memory backend replaces the stored record wholesale, so the edges
stored on the overwritten record are those of the new book, not the old
ones. -/
theorem C8_theorem :
    (∀ (s : MemStorage) (url : String) (b : Book),
      (s.setBook url b).state = s.state
      ∧ (s.setBook url b).getBook url = some b
      ∧ (∀ u, u ≠ url → (s.setBook url b).getBook u = s.getBook u))
    ∧ (∀ (db : NeoDB) (b : Book),
        (db.setBook b).alsoRead = db.alsoRead
        ∧ (∀ u, (lookupA (db.setBook b).nodes u).bind NeoNode.crawlState =
            (lookupA db.nodes u).bind NeoNode.crawlState)
        ∧ (∀ u,
            (lookupA (db.setBook b).nodes u).bind NeoNode.crawlStateChanged =
            (lookupA db.nodes u).bind NeoNode.crawlStateChanged)) := by
  constructor
  · intro s url b
    refine ⟨rfl, lookupA_setA_self _ _ _, ?_⟩
    intro u hu
    exact lookupA_setA_ne _ _ _ _ (fun h => hu h.symm)
  · intro db b
    refine ⟨rfl, ?_, ?_⟩
    · intro u
      by_cases hu : u = b.url
      · subst hu
        rw [NeoDB.setBook]
        cases hn : lookupA db.nodes b.url <;>
          simp [hn, lookupA_setA_self]
      · rw [NeoDB.setBook]
        cases hn : lookupA db.nodes b.url <;>
          simp [lookupA_setA_ne _ _ _ _ (fun h => hu h.symm)]
    · intro u
      by_cases hu : u = b.url
      · subst hu
        rw [NeoDB.setBook]
        cases hn : lookupA db.nodes b.url <;>
          simp [hn, lookupA_setA_self]
      · rw [NeoDB.setBook]
        cases hn : lookupA db.nodes b.url <;>
          simp [lookupA_setA_ne _ _ _ _ (fun h => hu h.symm)]

/-- C8 witness: the frame conditions applied at the concrete `c8store` and
a one-node graph database. -/
theorem C8_witness :
    (c8store.setBook "A" (Book.new "A")).state = c8store.state
    ∧ (c8store.setBook "A" (Book.new "A")).getBook "B" = c8store.getBook "B"
    ∧ (c1db.setBook (Book.new "A")).alsoRead = c1db.alsoRead := by
  refine ⟨(C8_theorem.1 c8store "A" (Book.new "A")).1,
    (C8_theorem.1 c8store "A" (Book.new "A")).2.2 "B" (by decide),
    (C8_theorem.2 c1db (Book.new "A")).1⟩

/-! ## Claim about the CLI wiring (C9) -/

/-- The CLI invocation `--min-rating 200 --max-rating 400
--max-num-ratings 1000` (all other flags at their defaults). -/
def c9flags : Flags := { minRating := 200, maxRating := 400, maxNumRatings := 1000 }

/-- C9: the claim states `--max-rating` configures the crawler's
`maxRating` bound and `--max-num-ratings` its `maxNumRatings` bound.  The
code (src/cmd/crawler/main.go line 81) passes the parsed `maxRating` value
to `WithMinRating` and never calls `WithMaxNumRatings` or `WithMaxRating`,
so with the flags above the crawler keeps `maxRating = -1` and
`maxNumRatings = -1` and has its `minRating` clobbered to 400 (instead of
the requested 200). -/
theorem C9_bug_eval :
    (runWiring c9flags).maxRating = -1
    ∧ (runWiring c9flags).maxNumRatings = -1
    ∧ (runWiring c9flags).minRating = 400 := by
  refine ⟨by decide, by decide, by decide⟩

/-! ## Claim about the graph assembler (C7) -/

theorem mem_setA {α : Type} {l : List (String × α)} {k : String} {v : α}
    {p : String × α} (h : p ∈ setA l k v) : p = (k, v) ∨ p ∈ l := by
  induction l with
  | nil => simpa [setA] using h
  | cons hd tl ih =>
    obtain ⟨k0, v0⟩ := hd
    by_cases h0 : k0 = k
    · simp only [setA, if_pos h0, List.mem_cons] at h
      rcases h with h | h
      · exact Or.inl h
      · exact Or.inr (List.mem_cons_of_mem _ h)
    · simp only [setA, if_neg h0, List.mem_cons] at h
      rcases h with h | h
      · exact Or.inr (by simp [h])
      · rcases ih h with h | h
        · exact Or.inl h
        · exact Or.inr (List.mem_cons_of_mem _ h)

theorem range_map_getD {β : Type} (f : Nat → β) (n d : Nat) (dflt : β)
    (h : d < n) : ((List.range n).map f).getD d dflt = f d := by
  rw [List.getD_eq_getElem?_getD, List.getElem?_map, List.getElem?_range h]
  rfl

theorem foldl_preserve {α β : Type} {P : β → Prop} {f : β → α → β} :
    ∀ (l : List α), (∀ b a, a ∈ l → P b → P (f b a)) →
      ∀ b, P b → P (l.foldl f b) := by
  intro l
  induction l with
  | nil => intro _ b hb; simpa using hb
  | cons hd tl ih =>
    intro hstep b hb
    exact ih (fun b' a ha hb' => hstep b' a (List.mem_cons_of_mem _ ha) hb')
      (f b hd) (hstep b hd (List.mem_cons_self _ _) hb)

/-- Every entry the `CollectByDepth` recursion records is the depth of an
actual path from the root: the recorded depth is realized, hence at least
the minimum depth (but, as `C7_counterexample` shows, not always equal to
it). -/
def DMInv (adj : String → List String) (root : String)
    (dm : List (String × Nat)) : Prop :=
  ∀ x d, (x, d) ∈ dm → HasPathLen adj root x d

theorem cbdGo_path (adj : String → List String) (root : String) :
    ∀ (fuel : Nat) (v : String) (depth : Nat)
      (acc : List (String × Nat) × Nat),
      DMInv adj root acc.1 → HasPathLen adj root v depth →
      DMInv adj root (cbdGo adj fuel v depth acc).1 := by
  intro fuel
  induction fuel with
  | zero => intro v depth acc hinv _; simpa [cbdGo] using hinv
  | succ n ih =>
    intro v depth acc hinv hp
    obtain ⟨dm, md⟩ := acc
    have hset : DMInv adj root (setA dm v depth) := by
      intro x d hx
      rcases mem_setA hx with h | h
      · obtain ⟨h1, h2⟩ := Prod.mk.injEq x d v depth ▸ h
        subst h1; subst h2
        exact hp
      · exact hinv x d h
    simp only [cbdGo]
    cases hl : lookupA dm v with
    | some cur =>
      by_cases hlt : depth < cur
      · simpa [hlt] using hset
      · simpa [hlt] using hinv
    | none =>
      refine foldl_preserve
        (P := fun (acc : List (String × Nat) × Nat) => DMInv adj root acc.1)
        (adj v) ?_ _ hset
      intro acc c hc hacc
      exact ih c (depth + 1) acc hacc (HasPathLen.snoc hp hc)

/-- The adjacency of the counterexample graph: `R → A`, `R → X`, `A → X`,
`X → Y` (list order matters: the DFS visits `A`'s subtree first). -/
def c7adj : String → List String :=
  fun v =>
    if v = "R" then ["A", "X"]
    else if v = "A" then ["X"]
    else if v = "X" then ["Y"] else []

/-- C7: the claim states every vertex is assigned its MINIMUM depth over
all paths from the root, including when the shortest path goes through a
vertex first discovered at a greater depth.  Refutation: in `c7adj` the
DFS reaches `X` first at depth 2 (via `A`) and expands `Y` at depth 3;
when `X` is later relaxed to depth 1, its children are not re-expanded
(`if has { return }`), so `Y` stays recorded at depth 3 although the path
`R → X → Y` has length 2. -/
theorem C7_counterexample :
    ("Y", 3) ∈ (collectByDepthMap c7adj "R" 10).1
    ∧ HasPathLen c7adj "R" "Y" 2
    ∧ ("Y", 2) ∉ (collectByDepthMap c7adj "R" 10).1
    ∧ ("X", 1) ∈ (collectByDepthMap c7adj "R" 10).1 := by
  refine ⟨by decide, ?_, by decide, by decide⟩
  exact @HasPathLen.snoc c7adj "R" "X" "Y" 1
    (@HasPathLen.snoc c7adj "R" "R" "X" 0 HasPathLen.refl (by decide))
    (by decide)

/-- C7 (amended): `ByDepth`'s `i`-th element is exactly the set of
vertices the traversal records at depth `i`, and every recorded depth is
the length of some path from the root (hence at least the minimum depth) —
but it is not always the minimum, because the children of an
already-visited vertex are not re-expanded when its own depth is
relaxed. -/
theorem C7_theorem :
    (∀ (adj : String → List String) (root : String) (fuel : Nat)
        (x : String) (d : Nat),
      (x, d) ∈ (collectByDepthMap adj root fuel).1 →
        HasPathLen adj root x d)
    ∧ (∀ (adj : String → List String) (root : String) (fuel d : Nat)
        (x : String), d < (collectByDepth adj root fuel).length →
        (x ∈ (collectByDepth adj root fuel).getD d [] ↔
          (x, d) ∈ (collectByDepthMap adj root fuel).1)) := by
  constructor
  · intro adj root fuel x d hx
    exact cbdGo_path adj root fuel root 0 ([], 0) (by intro x d h; simp at h)
      HasPathLen.refl x d hx
  · intro adj root fuel d x hd
    have hlen : d < (collectByDepthMap adj root fuel).2 + 1 := by
      simpa [collectByDepth] using hd
    rw [collectByDepth, range_map_getD _ _ _ _ hlen]
    constructor
    · intro hx
      rcases List.mem_map.mp hx with ⟨p, hp, hfst⟩
      rcases List.mem_filter.mp hp with ⟨hmem, hsnd⟩
      obtain ⟨px, pd⟩ := p
      have : pd = d := by simpa using hsnd
      subst this
      cases hfst
      exact hmem
    · intro hx
      exact List.mem_map.mpr ⟨(x, d), List.mem_filter.mpr ⟨hx, by simp⟩, rfl⟩

/-- C7 witness: the amended claim applied to the counterexample graph:
`Y`'s recorded depth 3 is realized by a path, and the depth-0 level
membership matches the map entries. -/
theorem C7_witness :
    HasPathLen c7adj "R" "Y" 3
    ∧ ("R" ∈ (collectByDepth c7adj "R" 10).getD 0 [] ↔
        ("R", 0) ∈ (collectByDepthMap c7adj "R" 10).1) := by
  constructor
  · exact C7_theorem.1 c7adj "R" 10 "Y" 3 (by decide)
  · exact C7_theorem.2 c7adj "R" 10 0 "R" (by decide)

/-! ## Claims about the crawl scheduler (C3, C4, C5, C6, C10) -/

/-- The run state after `checked := atomic.AddInt32(c.checked, 1)`. -/
def countChecked (st : RunState) : RunState :=
  { st with checked := st.checked + 1 }

/-- The run state after a successful claim CAS of `url` to `new` at the
current instant. -/
def claimedState (st : RunState) (url : String) (new : State) : RunState :=
  { st with
      storage := { st.storage with
        state := setA st.storage.state url { when := st.clock, state := new } }
      clock := st.clock + 1
      trace := st.trace ++ [{ st.storage with
        state := setA st.storage.state url { when := st.clock, state := new } }] }

theorem casStep_self (st : RunState) (url : String) (new : State) :
    casStep st url (st.storage.getBookState url) new =
      (claimedState st url new, { when := st.clock, state := new }, true) := by
  have hset : st.storage.setBookState st.clock url
      (st.storage.getBookState url) new =
      ({ st.storage with
          state := setA st.storage.state url { when := st.clock, state := new } },
        { when := st.clock, state := new }, true) := by
    simp only [MemStorage.setBookState]
    rw [if_neg (by simp)]
  simp only [casStep, hset, claimedState, if_true]

/-- A `crawl` invocation that survives the depth check and the fence, on a
vertex whose stored state is neither `Crawled` nor `Linked`, claims the
vertex with a CAS from the exact stored `(state, when)` witness to
`BeingCrawled` — which, absent interference, succeeds — and proceeds to
`handleNotCrawled` with the fresh witness. -/
theorem crawlGo_claim_notCrawled
    (cfg : Crawler) (w : World) (start fuel : Nat) (url : String)
    (depth index : Nat) (st : RunState)
    (hdepth : ¬ ((depth : Int) > cfg.maxDepth))
    (hsc : (st.storage.getBookState url).state ≠ .crawled)
    (hsc2 : (st.storage.getBookState url).state ≠ .linked)
    (hfence : ¬ start < (st.storage.getBookState url).when) :
    crawlGo cfg w start (fuel + 1) url depth index st =
      handleNotCrawled cfg w start (crawlGo cfg w start fuel) url
        { when := st.clock, state := .beingCrawled } depth index
        (claimedState (countChecked st) url .beingCrawled) := by
  have hsto : (countChecked st).storage = st.storage := rfl
  have hclk : (countChecked st).clock = st.clock := rfl
  simp only [crawlGo]
  rw [if_neg hdepth]
  simp only [countChecked]
  rw [if_neg hfence, if_neg hsc, if_neg hsc2]
  have := casStep_self (countChecked st) url .beingCrawled
  rw [hsto, hclk] at this
  simp only [countChecked] at this
  rw [this]

/-- C4: a book whose extracted attributes fail the ratings/rating filter
is silently dropped: the `crawl` invocation that claimed it returns
without error, no book record is written (`books` is unchanged), the
vertex's state remains `BeingCrawled` (at the claim instant, never
advanced to `Crawled` or `Linked`), and a subsequent
`LinkBook(parent, url, i)` from any stored parent is a no-op, so no edge
to the dropped vertex is added. -/
theorem C4_theorem
    (cfg : Crawler) (w : World) (start fuel : Nat) (url : String)
    (depth index : Nat) (st : RunState) (doc : Doc)
    (hdepth : ¬ ((depth : Int) > cfg.maxDepth))
    (hpage : w.pages url = some doc)
    (hfail : failsFilter cfg (buildBook url doc.attrs) = true)
    (hsc : (st.storage.getBookState url).state = .notCrawled)
    (hfence : ¬ start < (st.storage.getBookState url).when)
    (hnob : st.storage.getBook url = none) :
    ∃ st', crawlGo cfg w start (fuel + 1) url depth index st = .ok st'
      ∧ st'.storage.books = st.storage.books
      ∧ st'.storage.getBookState url =
          { when := st.clock, state := .beingCrawled }
      ∧ ∀ (p : String) (i : Int) (bp : Book),
          st'.storage.getBook p = some bp →
          st'.storage.linkBook p url i = .ok st'.storage := by
  refine ⟨claimedState (countChecked st) url .beingCrawled, ?_, rfl, ?_, ?_⟩
  · rw [crawlGo_claim_notCrawled cfg w start fuel url depth index st hdepth
      (by rw [hsc]; intro h; cases h) (by rw [hsc]; intro h; cases h) hfence]
    simp only [handleNotCrawled, hpage]
    rw [if_pos hfail]
  · simp only [claimedState, countChecked, MemStorage.getBookState]
    rw [lookupA_setA_self]
    rfl
  · intro p i bp hp
    have hp' : lookupA st.storage.books p = some bp := hp
    have hn' : lookupA st.storage.books url = none := hnob
    simp only [MemStorage.linkBook, claimedState, countChecked] at hp' ⊢
    rw [hp', hn']

/-- A world with a single page whose book has `Rating = 350`. -/
def c4world : World :=
  { pages := fun u =>
      if u = "/book/show/u" then
        some { attrs := { rating := 350 }, alsoReadHref := some "sim" }
      else none
    similar := fun _ => none
    resolve := fun _ href => some href }

/-- The crawler configured with `MinRating = 400` (filter bound). -/
def c4cfg : Crawler := { minRating := 400 }

/-- The run state at the start of a fresh run (`start = 0`). -/
def c4st0 : RunState :=
  { storage := MemStorage.empty, clock := 1, checked := 0, crawled := 0,
    trace := [MemStorage.empty] }

/-- C4 witness: the filtered-drop behaviour at the concrete scenario of
the spec (`Rating=350` against `MinRating=400`). -/
theorem C4_witness :
    ∃ st', crawlGo c4cfg c4world 0 1 "/book/show/u" 0 0 c4st0 = .ok st'
      ∧ st'.storage.books = c4st0.storage.books
      ∧ st'.storage.getBookState "/book/show/u" =
          { when := 1, state := .beingCrawled }
      ∧ ∀ (p : String) (i : Int) (bp : Book),
          st'.storage.getBook p = some bp →
          st'.storage.linkBook p "/book/show/u" i = .ok st'.storage :=
  C4_theorem c4cfg c4world 0 1 "/book/show/u" 0 0 c4st0
    { attrs := { rating := 350 }, alsoReadHref := some "sim" }
    (by decide) (by decide) (by decide) (by decide) (by decide) (by decide)

/-- C10: a vertex found in `BeingCrawled` with a `When` at or before the
run's start (left mid-crawl or filter-dropped by a previous run) is not
skipped: the dispatch falls through to the claim CAS from the exact stored
`(BeingCrawled, When)` witness — which succeeds — and the vertex is then
fully re-processed by `handleNotCrawled`, exactly like a `NotCrawled`
one. -/
theorem C10_theorem
    (cfg : Crawler) (w : World) (start fuel : Nat) (url : String)
    (depth index : Nat) (st : RunState) (w0 : Nat)
    (hdepth : ¬ ((depth : Int) > cfg.maxDepth))
    (hsc : st.storage.getBookState url =
      { when := w0, state := .beingCrawled })
    (hfence : ¬ start < w0) :
    (st.storage.setBookState st.clock url
        { when := w0, state := .beingCrawled } .beingCrawled).2.2 = true
    ∧ crawlGo cfg w start (fuel + 1) url depth index st =
        handleNotCrawled cfg w start (crawlGo cfg w start fuel) url
          { when := st.clock, state := .beingCrawled } depth index
          (claimedState (countChecked st) url .beingCrawled)
    ∧ (claimedState (countChecked st) url
        .beingCrawled).storage.getBookState url =
          { when := st.clock, state := .beingCrawled }
    ∧ (claimedState (countChecked st) url .beingCrawled).storage.books =
        st.storage.books := by
  refine ⟨?_, ?_, ?_, rfl⟩
  · simp only [MemStorage.setBookState, hsc]
    rw [if_neg (by simp)]
  · exact crawlGo_claim_notCrawled cfg w start fuel url depth index st hdepth
      (by rw [hsc]; intro h; cases h) (by rw [hsc]; intro h; cases h)
      (by rw [hsc]; exact hfence)
  · simp only [claimedState, countChecked, MemStorage.getBookState]
    rw [lookupA_setA_self]
    rfl

/-- Storage holding a stale `BeingCrawled` vertex: `u` was claimed at
instant 3 by a previous run. -/
def c10mem : MemStorage :=
  { books := [], state := [("u", { when := 3, state := .beingCrawled })] }

/-- The run state over `c10mem` for a run that started at instant 5. -/
def c10st : RunState :=
  { storage := c10mem, clock := 6, checked := 0, crawled := 0,
    trace := [c10mem] }

/-- C10 witness: the stale-vertex re-processing applied at a concrete
stale storage (`u` claimed at 3, run started at 5). -/
theorem C10_witness :
    (c10st.storage.setBookState 6 "u"
        { when := 3, state := .beingCrawled } .beingCrawled).2.2 = true
    ∧ crawlGo {} c4world 5 1 "u" 0 0 c10st =
        handleNotCrawled {} c4world 5 (crawlGo {} c4world 5 0) "u"
          { when := 6, state := .beingCrawled } 0 0
          (claimedState (countChecked c10st) "u" .beingCrawled)
    ∧ (claimedState (countChecked c10st) "u"
        .beingCrawled).storage.getBookState "u" =
          { when := 6, state := .beingCrawled }
    ∧ (claimedState (countChecked c10st) "u" .beingCrawled).storage.books =
        c10st.storage.books :=
  C10_theorem {} c4world 5 0 "u" 0 0 c10st 3 (by decide) (by decide)
    (by decide)

/-- The `checked` counter of a finished run. -/
def crawlChecked (r : Except Err RunState) : Option Nat :=
  match r with
  | .ok st => some st.checked
  | .error _ => none

/-- The `crawled` counter of a finished run. -/
def crawlCrawledCount (r : Except Err RunState) : Option Nat :=
  match r with
  | .ok st => some st.crawled
  | .error _ => none

/-- The stored `StateChange` of `url` after a finished run. -/
def crawlStateOf (r : Except Err RunState) (url : String) :
    Option StateChange :=
  match r with
  | .ok st => some (st.storage.getBookState url)
  | .error _ => none

/-- The stored outgoing edges of `url` after a finished run (`none` when
the run failed or no book is stored). -/
def crawlEdgesOf (r : Except Err RunState) (url : String) :
    Option (List Edge) :=
  match r with
  | .ok st => (st.storage.getBook url).map Book.alsoRead
  | .error _ => none

/-- Seed `A` of the two-book cycle scenario. -/
def c6A : String := "/book/show/A"

/-- Book `B` of the two-book cycle scenario. -/
def c6B : String := "/book/show/B"

/-- The world of end-to-end scenario 2: `A`'s related list is `[B]` and
`B`'s related list is `[A]`. -/
def c6world : World :=
  { pages := fun u =>
      if u = c6A then some { attrs := {}, alsoReadHref := some "simA" }
      else if u = c6B then some { attrs := {}, alsoReadHref := some "simB" }
      else none
    similar := fun s =>
      if s = "simA" then some [{ href := some c6B }]
      else if s = "simB" then some [{ href := some c6A }]
      else none
    resolve := fun _ href => some href }

/-- The crawler of scenario 2: `MaxDepth = 5`, everything else default. -/
def c6cfg : Crawler := { maxDepth := 5 }

/-- The complete run of scenario 2 from an empty storage, `start = 0`. -/
def c6run : Except Err RunState := CrawlRun c6cfg c6world c6A MemStorage.empty 0

/-- The URLs having a stored book record after a finished run, in
insertion order. -/
def crawlBookURLs (r : Except Err RunState) : Option (List String) :=
  match r with
  | .ok st => some (st.storage.books.map Prod.fst)
  | .error _ => none

/-- C6: the claim states the `checked` counter ends at exactly 4 (2 CAS
wins plus 2 fence short-circuits).  Refutation: only three `crawl`
invocations happen — `A` at depth 0, `B` at depth 1, and `A` again at
depth 2, which the fence short-circuits; `B` is never revisited, so
`checked` ends at 3, not 4. -/
theorem C6_counterexample :
    crawlChecked c6run = some 3 ∧ crawlChecked c6run ≠ some 4 := by
  refine ⟨by decide, by decide⟩

/-- C6 (amended): on the cycle `A ↔ B` with `MaxDepth = 5`, `Crawl(A)`
terminates without error, produces exactly the vertices `{A, B}` and the
edges `{A→B [0], B→A [0]}`, both vertices end `Linked`, and the `checked`
counter ends at exactly 3: two crawl invocations that win their claim CAS
plus one fence short-circuit (the depth-2 revisit of `A`). -/
theorem C6_theorem :
    crawlChecked c6run = some 3
    ∧ crawlCrawledCount c6run = some 2
    ∧ crawlBookURLs c6run = some [c6A, c6B]
    ∧ crawlStateOf c6run c6A = some { when := 6, state := .linked }
    ∧ crawlStateOf c6run c6B = some { when := 5, state := .linked }
    ∧ crawlEdgesOf c6run c6A =
        some [{ fromURL := c6A, toURL := c6B, priority := 0 }]
    ∧ crawlEdgesOf c6run c6B =
        some [{ fromURL := c6B, toURL := c6A, priority := 0 }] := by
  refine ⟨by decide, by decide, by decide, by decide, by decide, by decide,
    by decide⟩

/-- The (amended) storage invariant of I3: a URL with a stored book record
has a crawl state of at least `BeingCrawled` (`toNat ≥ 1`). -/
def InvStorage (s : MemStorage) : Prop :=
  ∀ u b, s.getBook u = some b → 1 ≤ (s.getBookState u).state.toNat

/-- The invariant over a run state: the current storage and every recorded
storage snapshot satisfy `InvStorage`. -/
def InvRun (st : RunState) : Prop :=
  InvStorage st.storage ∧ ∀ s ∈ st.trace, InvStorage s

theorem invStorage_setBookState (s : MemStorage) (now : Nat) (url : String)
    (prev : StateChange) (new : State) (h : InvStorage s)
    (hnew : 1 ≤ new.toNat) :
    InvStorage (s.setBookState now url prev new).1 := by
  simp only [MemStorage.setBookState]
  by_cases hc : prev.state ≠ (s.getBookState url).state ∨
      prev.when ≠ (s.getBookState url).when
  · rw [if_pos hc]
    exact h
  · rw [if_neg hc]
    intro u b hb
    have h1 := h u b hb
    simp only [MemStorage.getBookState] at h1 ⊢
    by_cases hu : url = u
    · subst hu
      rw [lookupA_setA_self]
      exact hnew
    · rw [lookupA_setA_ne _ _ _ _ hu]
      exact h1

theorem invRun_casStep (st : RunState) (url : String) (prev : StateChange)
    (new : State) (h : InvRun st) (hnew : 1 ≤ new.toNat) :
    InvRun (casStep st url prev new).1 := by
  have hst := invStorage_setBookState st.storage st.clock url prev new h.1 hnew
  simp only [casStep]
  by_cases hc : (st.storage.setBookState st.clock url prev new).2.2 = true
  · rw [if_pos hc]
    refine ⟨hst, ?_⟩
    intro s hs
    rcases List.mem_append.mp hs with hs | hs
    · exact h.2 s hs
    · rcases List.mem_singleton.mp hs with rfl
      exact hst
  · rw [if_neg hc]
    exact h

theorem invRun_setBookStep (st : RunState) (url : String) (b : Book)
    (h : InvRun st)
    (hclaim : 1 ≤ (st.storage.getBookState url).state.toNat) :
    InvRun (setBookStep st url b) := by
  have hst : InvStorage (st.storage.setBook url b) := by
    intro u bu hbu
    simp only [MemStorage.setBook, MemStorage.getBook,
      MemStorage.getBookState] at hbu ⊢
    by_cases hu : url = u
    · subst hu
      exact hclaim
    · rw [lookupA_setA_ne _ _ _ _ hu] at hbu
      exact h.1 u bu hbu
  refine ⟨hst, ?_⟩
  intro s hs
  rcases List.mem_append.mp hs with hs | hs
  · exact h.2 s hs
  · rcases List.mem_singleton.mp hs with rfl
    exact hst

theorem invStorage_linkBook (s s' : MemStorage) (url rel : String) (p : Int)
    (h : InvStorage s) (hres : s.linkBook url rel p = .ok s') :
    InvStorage s' := by
  simp only [MemStorage.linkBook] at hres
  cases hu : lookupA s.books url with
  | none => rw [hu] at hres; cases hres
  | some b =>
    rw [hu] at hres
    cases hr : lookupA s.books rel with
    | none =>
      rw [hr] at hres
      cases hres
      exact h
    | some x =>
      rw [hr] at hres
      cases hres
      intro u bu hbu
      simp only [MemStorage.getBook, MemStorage.getBookState] at hbu ⊢
      by_cases huu : url = u
      · subst huu
        exact h url b hu
      · rw [lookupA_setA_ne _ _ _ _ huu] at hbu
        exact h u bu hbu

theorem invRun_linkBookStep (st : RunState) (url rel : String) (p : Int)
    (st' : RunState) (h : InvRun st)
    (hres : linkBookStep st url rel p = .ok st') : InvRun st' := by
  simp only [linkBookStep] at hres
  cases hl : st.storage.linkBook url rel p with
  | error e => rw [hl] at hres; cases hres
  | ok s' =>
    rw [hl] at hres
    cases hres
    have hst := invStorage_linkBook st.storage s' url rel p h.1 hl
    refine ⟨hst, ?_⟩
    intro s hs
    rcases List.mem_append.mp hs with hs | hs
    · exact h.2 s hs
    · rcases List.mem_singleton.mp hs with rfl
      exact hst

/-- A recursive-crawl function that preserves `InvRun` on success. -/
def RecPreserves
    (recur : String → Nat → Nat → RunState → Except Err RunState) : Prop :=
  ∀ u d i st st', InvRun st → recur u d i st = .ok st' → InvRun st'

theorem crawlChildren_inv
    (recur : String → Nat → Nat → RunState → Except Err RunState)
    (hrec : RecPreserves recur) (bookURL : String) (depth : Nat) :
    ∀ (l : List (Nat × String)) (st st' : RunState), InvRun st →
      crawlChildren recur bookURL depth l st = .ok st' → InvRun st' := by
  intro l
  induction l with
  | nil =>
    intro st st' h hres
    simp only [crawlChildren] at hres
    cases hres
    exact h
  | cons hd tl ih =>
    intro st st' h hres
    obtain ⟨idx, linkURL⟩ := hd
    simp only [crawlChildren] at hres
    cases hr : recur linkURL (depth + 1) idx st with
    | error e => rw [hr] at hres; cases hres
    | ok st1 =>
      rw [hr] at hres
      dsimp only at hres
      cases hl : linkBookStep st1 bookURL linkURL (idx : Int) with
      | error e => rw [hl] at hres; cases hres
      | ok st2 =>
        rw [hl] at hres
        dsimp only at hres
        exact ih st2 st'
          (invRun_linkBookStep st1 bookURL linkURL _ st2
            (hrec linkURL (depth + 1) idx st st1 h hr) hl) hres

theorem crawlAlsoRead_inv (cfg : Crawler) (w : World)
    (recur : String → Nat → Nat → RunState → Except Err RunState)
    (hrec : RecPreserves recur) (bookURL similarBooksURL : String)
    (depth : Nat) (st st' : RunState) (h : InvRun st)
    (hres : crawlAlsoRead cfg w recur bookURL similarBooksURL depth st =
      .ok st') : InvRun st' := by
  simp only [crawlAlsoRead] at hres
  cases hsim : w.similar similarBooksURL with
  | none => rw [hsim] at hres; cases hres
  | some anchors =>
    rw [hsim] at hres
    exact crawlChildren_inv recur hrec bookURL depth _ st st' h hres

theorem handleCrawledDoc_inv (cfg : Crawler) (w : World)
    (recur : String → Nat → Nat → RunState → Except Err RunState)
    (hrec : RecPreserves recur) (url : String) (prevState : StateChange)
    (depth : Nat) (st st' : RunState) (doc : Doc) (h : InvRun st)
    (hres : handleCrawledDoc cfg w recur url prevState depth st doc =
      .ok st') : InvRun st' := by
  simp only [handleCrawledDoc] at hres
  cases hhref : doc.alsoReadHref with
  | none => rw [hhref] at hres; cases hres
  | some href =>
    rw [hhref] at hres
    dsimp only at hres
    cases hrv : w.resolve url href with
    | none => rw [hrv] at hres; cases hres
    | some alsoReadLink =>
      rw [hrv] at hres
      dsimp only at hres
      have hkids : ∀ (st1 : RunState),
          (if (depth : Int) < cfg.maxDepth then
            crawlAlsoRead cfg w recur url alsoReadLink depth st
          else .ok st) = .ok st1 → InvRun st1 := by
        intro st1 hif
        by_cases hd : (depth : Int) < cfg.maxDepth
        · rw [if_pos hd] at hif
          exact crawlAlsoRead_inv cfg w recur hrec url alsoReadLink depth
            st st1 h hif
        · rw [if_neg hd] at hif
          cases hif
          exact h
      cases hk : (if (depth : Int) < cfg.maxDepth then
          crawlAlsoRead cfg w recur url alsoReadLink depth st
        else .ok st) with
      | error e => rw [hk] at hres; cases hres
      | ok st1 =>
        rw [hk] at hres
        dsimp only at hres
        have h1 := hkids st1 hk
        have hinv := invRun_casStep st1 url prevState .linked h1
          (by simp [State.toNat])
        rcases hcs : casStep st1 url prevState .linked with ⟨st2, sc2, b⟩
        rw [hcs] at hres
        cases b with
        | true =>
          cases hres
          rw [hcs] at hinv
          exact hinv
        | false => cases hres

theorem handleCrawled_inv (cfg : Crawler) (w : World) (start : Nat)
    (recur : String → Nat → Nat → RunState → Except Err RunState)
    (hrec : RecPreserves recur) (url : String) (prevState : StateChange)
    (depth index : Nat) (st st' : RunState) (doc? : Option Doc)
    (h : InvRun st)
    (hres : handleCrawled cfg w start recur url prevState depth index st
      doc? = .ok st') : InvRun st' := by
  simp only [handleCrawled] at hres
  cases doc? with
  | some d =>
    exact handleCrawledDoc_inv cfg w recur hrec url prevState depth st st' d
      h hres
  | none =>
    cases hp : w.pages url with
    | none => rw [hp] at hres; cases hres
    | some d =>
      rw [hp] at hres
      exact handleCrawledDoc_inv cfg w recur hrec url prevState depth st st' d
        h hres

theorem setBookState_true_stored (s : MemStorage) (now : Nat) (url : String)
    (prev : StateChange) (new : State)
    (h : (s.setBookState now url prev new).2.2 = true) :
    (s.setBookState now url prev new).1.getBookState url =
      { when := now, state := new } := by
  simp only [MemStorage.setBookState] at h ⊢
  by_cases hc : prev.state ≠ (s.getBookState url).state ∨
      prev.when ≠ (s.getBookState url).when
  · rw [if_pos hc] at h
    cases h
  · rw [if_neg hc] at h ⊢
    simp only [MemStorage.getBookState]
    rw [lookupA_setA_self]
    rfl

theorem casStep_true_stored (st : RunState) (url : String)
    (prev : StateChange) (new : State) (st2 : RunState) (sc : StateChange)
    (hcs : casStep st url prev new = (st2, sc, true)) :
    st2.storage.getBookState url = { when := st.clock, state := new } := by
  simp only [casStep] at hcs
  by_cases hb : (st.storage.setBookState st.clock url prev new).2.2 = true
  · rw [if_pos hb] at hcs
    have h1 := congrArg (fun t => t.1.storage) hcs
    dsimp only at h1
    rw [← h1]
    exact setBookState_true_stored st.storage st.clock url prev new hb
  · rw [if_neg hb] at hcs
    have h2 := congrArg (fun t => t.2.2) hcs
    simp at h2

theorem casStep_false_id (st : RunState) (url : String)
    (prev : StateChange) (new : State) (st2 : RunState) (sc : StateChange)
    (hcs : casStep st url prev new = (st2, sc, false)) : st2 = st := by
  simp only [casStep] at hcs
  by_cases hb : (st.storage.setBookState st.clock url prev new).2.2 = true
  · rw [if_pos hb] at hcs
    have h2 := congrArg (fun t => t.2.2) hcs
    simp at h2
  · rw [if_neg hb] at hcs
    exact (congrArg (fun t => t.1) hcs).symm

theorem handleNotCrawled_inv (cfg : Crawler) (w : World) (start : Nat)
    (recur : String → Nat → Nat → RunState → Except Err RunState)
    (hrec : RecPreserves recur) (url : String) (prevState : StateChange)
    (depth index : Nat) (st st' : RunState) (h : InvRun st)
    (hclaim : 1 ≤ (st.storage.getBookState url).state.toNat)
    (hres : handleNotCrawled cfg w start recur url prevState depth index st =
      .ok st') : InvRun st' := by
  simp only [handleNotCrawled] at hres
  split at hres
  · cases hres
  · rename_i doc hp
    split at hres
    · cases hres
      exact h
    · split at hres
      · rename_i st2 sc hcs
        have h1 : InvRun (setBookStep st url (buildBook url doc.attrs)) :=
          invRun_setBookStep st url _ h hclaim
        have h2 := invRun_casStep
          (setBookStep st url (buildBook url doc.attrs))
          url prevState .crawled h1 (by simp [State.toNat])
        rw [hcs] at h2
        have h3 : InvRun { st2 with crawled := st2.crawled + 1 } :=
          ⟨h2.1, h2.2⟩
        exact handleCrawled_inv cfg w start recur hrec url sc depth index
          _ st' (some doc) h3 hres
      · cases hres

theorem linkedChildren_inv
    (recur : String → Nat → Nat → RunState → Except Err RunState)
    (hrec : RecPreserves recur) (depth : Nat) :
    ∀ (l : List (Nat × Edge)) (st st' : RunState), InvRun st →
      linkedChildren recur depth l st = .ok st' → InvRun st' := by
  intro l
  induction l with
  | nil =>
    intro st st' h hres
    simp only [linkedChildren] at hres
    cases hres
    exact h
  | cons hd tl ih =>
    intro st st' h hres
    obtain ⟨idx, e⟩ := hd
    simp only [linkedChildren] at hres
    cases hr : recur e.toURL (depth + 1) idx st with
    | error err => rw [hr] at hres; cases hres
    | ok st1 =>
      rw [hr] at hres
      dsimp only at hres
      exact ih st1 st' (hrec e.toURL (depth + 1) idx st st1 h hr) hres

theorem handlePreviouslyLinked_inv
    (recur : String → Nat → Nat → RunState → Except Err RunState)
    (hrec : RecPreserves recur) (url : String) (prevState : StateChange)
    (depth index : Nat) (st st' : RunState) (h : InvRun st)
    (hres : handlePreviouslyLinked recur url prevState depth index st =
      .ok st') : InvRun st' := by
  simp only [handlePreviouslyLinked] at hres
  cases hb : st.storage.getBook url with
  | none => rw [hb] at hres; cases hres
  | some b =>
    rw [hb] at hres
    dsimp only at hres
    exact linkedChildren_inv recur hrec depth _ st st' h hres

/-- Every `crawl` invocation preserves the amended I3 invariant: in the
resulting run state (and every storage snapshot recorded along the way),
a stored book implies a crawl state of at least `BeingCrawled`. -/
theorem crawlGo_inv (cfg : Crawler) (w : World) (start : Nat) :
    ∀ (fuel : Nat), RecPreserves (crawlGo cfg w start fuel) := by
  intro fuel
  induction fuel with
  | zero =>
    intro u d i st st' h hres
    simp only [crawlGo] at hres
    cases hres
  | succ fuel ih =>
    intro u d i st st' h hres
    simp only [crawlGo] at hres
    by_cases hd : (d : Int) > cfg.maxDepth
    · rw [if_pos hd] at hres
      cases hres
      exact h
    · rw [if_neg hd] at hres
      have hst1 : InvRun { st with checked := st.checked + 1 } := ⟨h.1, h.2⟩
      by_cases hf : start < (st.storage.getBookState u).when
      · rw [if_pos hf] at hres
        cases hres
        exact hst1
      · rw [if_neg hf] at hres
        by_cases hc : (st.storage.getBookState u).state = State.crawled
        · rw [if_pos hc] at hres
          have h2 := invRun_casStep { st with checked := st.checked + 1 } u
            (st.storage.getBookState u) .crawled hst1 (by simp [State.toNat])
          rcases hcs : casStep { st with checked := st.checked + 1 } u
            (st.storage.getBookState u) .crawled with ⟨st2, sc2, b⟩
          rw [hcs] at hres h2
          cases b with
          | false =>
            cases hres
            have hid := casStep_false_id _ _ _ _ _ _ hcs
            subst hid
            exact hst1
          | true =>
            dsimp only at hres
            exact handleCrawled_inv cfg w start _ ih u sc2 d i st2 st' none
              h2 hres
        · rw [if_neg hc] at hres
          by_cases hlk : (st.storage.getBookState u).state = State.linked
          · rw [if_pos hlk] at hres
            have h2 := invRun_casStep { st with checked := st.checked + 1 } u
              (st.storage.getBookState u) .linked hst1 (by simp [State.toNat])
            rcases hcs : casStep { st with checked := st.checked + 1 } u
              (st.storage.getBookState u) .linked with ⟨st2, sc2, b⟩
            rw [hcs] at hres h2
            cases b with
            | false =>
            cases hres
            have hid := casStep_false_id _ _ _ _ _ _ hcs
            subst hid
            exact hst1
            | true =>
              dsimp only at hres
              exact handlePreviouslyLinked_inv _ ih u sc2 d i st2 st' h2 hres
          · rw [if_neg hlk] at hres
            have h2 := invRun_casStep { st with checked := st.checked + 1 } u
              (st.storage.getBookState u) .beingCrawled hst1
              (by simp [State.toNat])
            rcases hcs : casStep { st with checked := st.checked + 1 } u
              (st.storage.getBookState u) .beingCrawled with ⟨st2, sc2, b⟩
            rw [hcs] at hres h2
            cases b with
            | false =>
            cases hres
            have hid := casStep_false_id _ _ _ _ _ _ hcs
            subst hid
            exact hst1
            | true =>
              dsimp only at hres
              have hclaim : 1 ≤ (st2.storage.getBookState u).state.toNat := by
                rw [casStep_true_stored { st with checked := st.checked + 1 }
                  u (st.storage.getBookState u) .beingCrawled st2 sc2 hcs]
                simp [State.toNat]
              exact handleNotCrawled_inv cfg w start _ ih u sc2 d i st2 st'
                h2 hclaim hres

/-- Does a recorded storage snapshot of the run expose a stored book for
`A` while `A`'s crawl state is still `BeingCrawled`? -/
def c5violation (s : MemStorage) : Bool :=
  (s.getBook c6A).isSome &&
    decide ((s.getBookState c6A).state = .beingCrawled)

/-- Does any storage snapshot recorded during the run satisfy `p`? -/
def crawlTraceAny (r : Except Err RunState) (p : MemStorage → Bool) :
    Bool :=
  match r with
  | .ok st => st.trace.any p
  | .error _ => false

/-- C5: the claim states a Book record may exist only when the URL's state
is ≥ `Crawled`, at every point of the crawl.  Refutation: the code calls
`SetBook` *before* the CAS to `Crawled` (src/unnamed/part_005 lines
133-137), so already the plain sequential schedule passes through a
storage state where `A`'s book is stored while `A` is still
`BeingCrawled`. -/
theorem C5_counterexample : crawlTraceAny c6run c5violation = true := by
  decide

/-- C5 (amended): at every recorded point of a crawl (every storage
snapshot after a storage write, and the final storage), a stored Book
record implies the URL's crawl state is at least `BeingCrawled`; the state
reaches `Crawled` only after the already-written book's CAS, so mid-
`handleNotCrawled` the state can still be `BeingCrawled`. -/
theorem C5_theorem (cfg : Crawler) (w : World) (start fuel : Nat)
    (url : String) (depth index : Nat) (st st' : RunState)
    (h : InvRun st)
    (hres : crawlGo cfg w start fuel url depth index st = .ok st') :
    (∀ u b, st'.storage.getBook u = some b →
      1 ≤ (st'.storage.getBookState u).state.toNat)
    ∧ ∀ s ∈ st'.trace, ∀ u b, s.getBook u = some b →
        1 ≤ (s.getBookState u).state.toNat :=
  crawlGo_inv cfg w start fuel url depth index st st' h hres

/-- C5 witness: the preserved invariant applied to the concrete
filter-drop run of `c4world` (a run that writes a state but no book). -/
theorem C5_witness :
    (∀ u b, (claimedState (countChecked c4st0) "/book/show/u"
        .beingCrawled).storage.getBook u = some b →
      1 ≤ ((claimedState (countChecked c4st0) "/book/show/u"
        .beingCrawled).storage.getBookState u).state.toNat)
    ∧ ∀ s ∈ (claimedState (countChecked c4st0) "/book/show/u"
        .beingCrawled).trace, ∀ u b, s.getBook u = some b →
        1 ≤ (s.getBookState u).state.toNat :=
  C5_theorem c4cfg c4world 0 1 "/book/show/u" 0 0 c4st0 _
    (by constructor
        · intro u b hb
          simp [MemStorage.getBook, MemStorage.empty, lookupA, c4st0] at hb
        · intro s hs
          simp only [c4st0, List.mem_singleton] at hs
          subst hs
          intro u b hb
          simp [MemStorage.getBook, MemStorage.empty, lookupA] at hb)
    rfl

/-- Does an anchor survive `extractRelatedBookURLs`'s skip checks, and if
so with which absolute URL?  (`none` = skipped: no `href`, `AbsoluteURL`
failure, or not a `/book/show/` URL.) -/
def anchorPass (resolve : String → Option String) (a : Anchor) :
    Option String :=
  match a.href with
  | none => none
  | some href =>
    match resolve href with
    | none => none
    | some abs => if strHasSub abs "/book/show/" then some abs else none

theorem extractStep_full (resolve : String → Option String) (k : Nat)
    (urls : List String) (a : Anchor) (h : urls.length = k) :
    extractStep resolve (k : Int) urls a = urls := by
  simp only [extractStep]
  rw [if_pos (by exact_mod_cast h)]

theorem extractStep_open (resolve : String → Option String) (k : Nat)
    (urls : List String) (a : Anchor) (h : urls.length ≠ k) :
    extractStep resolve (k : Int) urls a =
      match anchorPass resolve a with
      | none => urls
      | some abs => urls ++ [abs] := by
  obtain ⟨href?⟩ := a
  cases href? with
  | none =>
    simp only [extractStep, anchorPass]
    rw [if_neg (by exact_mod_cast h)]
  | some href =>
    cases hr : resolve href with
    | none =>
      simp only [extractStep, anchorPass, hr]
      rw [if_neg (by exact_mod_cast h)]
    | some abs =>
      simp only [extractStep, anchorPass, hr]
      rw [if_neg (by exact_mod_cast h)]
      by_cases hb : strHasSub abs "/book/show/" = true
      · rw [if_pos hb, if_pos hb]
      · rw [if_neg hb, if_neg hb]

theorem extract_foldl_take (resolve : String → Option String) (k : Nat) :
    ∀ (anchors : List Anchor) (acc : List String), acc.length ≤ k →
      anchors.foldl (extractStep resolve (k : Int)) acc =
        acc ++ (anchors.filterMap (anchorPass resolve)).take
          (k - acc.length) := by
  intro anchors
  induction anchors with
  | nil => intro acc _; simp
  | cons a rest ih =>
    intro acc hlen
    by_cases hfull : acc.length = k
    · have hstep := extractStep_full resolve k acc a hfull
      simp only [List.foldl_cons, hstep]
      rw [ih acc hlen]
      simp [hfull]
    · have hlt : acc.length < k := lt_of_le_of_ne hlen hfull
      have hstep := extractStep_open resolve k acc a hfull
      simp only [List.foldl_cons, hstep]
      cases hpass : anchorPass resolve a with
      | none =>
        simp only [hpass]
        rw [ih acc hlen]
        simp [List.filterMap_cons, hpass]
      | some abs =>
        simp only [hpass]
        rw [ih (acc ++ [abs]) (by simp; omega)]
        have hk : k - acc.length = (k - (acc ++ [abs]).length) + 1 := by
          simp
          omega
        simp only [List.filterMap_cons, hpass, hk, List.take_succ_cons,
          List.append_assoc, List.singleton_append]

/-- `extractRelatedBookURLs` equals "filter the anchors, then truncate to
`maxReadAlso`": a skipped anchor vanishes before the indices are assigned,
so it does not consume a sibling index. -/
theorem extract_eq_take (resolve : String → Option String) (k : Nat)
    (anchors : List Anchor) :
    extractRelatedURLs resolve (k : Int) anchors =
      (anchors.filterMap (anchorPass resolve)).take k := by
  have := extract_foldl_take resolve k anchors [] (by simp)
  simpa [extractRelatedURLs] using this

theorem extract_length_le (resolve : String → Option String) (k : Nat)
    (anchors : List Anchor) :
    (extractRelatedURLs resolve (k : Int) anchors).length ≤ k := by
  rw [extract_eq_take]
  simp

/-- `st'` leaves vertex `p` exactly as `st` had it: same stored book
record (hence same edge list) and same `StateChange`. -/
def UntouchedP (p : String) (st st' : RunState) : Prop :=
  lookupA st'.storage.books p = lookupA st.storage.books p
  ∧ st'.storage.getBookState p = st.storage.getBookState p

theorem untouchedP_refl (p : String) (st : RunState) : UntouchedP p st st :=
  ⟨rfl, rfl⟩

theorem untouchedP_trans {p : String} {st1 st2 st3 : RunState}
    (h1 : UntouchedP p st1 st2) (h2 : UntouchedP p st2 st3) :
    UntouchedP p st1 st3 :=
  ⟨h2.1.trans h1.1, h2.2.trans h1.2⟩

theorem setBookState_books (s : MemStorage) (now : Nat) (u : String)
    (prev : StateChange) (new : State) :
    (s.setBookState now u prev new).1.books = s.books := by
  simp only [MemStorage.setBookState]
  by_cases hc : prev.state ≠ (s.getBookState u).state ∨
      prev.when ≠ (s.getBookState u).when
  · rw [if_pos hc]
  · rw [if_neg hc]

theorem setBookState_state_ne (s : MemStorage) (now : Nat) (u p : String)
    (prev : StateChange) (new : State) (hne : u ≠ p) :
    (s.setBookState now u prev new).1.getBookState p = s.getBookState p := by
  simp only [MemStorage.setBookState]
  by_cases hc : prev.state ≠ (s.getBookState u).state ∨
      prev.when ≠ (s.getBookState u).when
  · rw [if_pos hc]
  · rw [if_neg hc]
    simp only [MemStorage.getBookState]
    rw [lookupA_setA_ne _ _ _ _ hne]

theorem untouched_casStep (st : RunState) (u p : String)
    (prev : StateChange) (new : State) (hne : u ≠ p) :
    UntouchedP p st (casStep st u prev new).1 := by
  simp only [casStep]
  by_cases hb : (st.storage.setBookState st.clock u prev new).2.2 = true
  · rw [if_pos hb]
    exact ⟨by simp [setBookState_books],
      setBookState_state_ne st.storage st.clock u p prev new hne⟩
  · rw [if_neg hb]
    exact untouchedP_refl p st

theorem untouched_setBookStep (st : RunState) (u p : String) (b : Book)
    (hne : u ≠ p) : UntouchedP p st (setBookStep st u b) := by
  refine ⟨?_, rfl⟩
  simp only [setBookStep, MemStorage.setBook]
  rw [lookupA_setA_ne _ _ _ _ hne]

theorem untouched_linkBookStep (st st' : RunState) (u rel p : String)
    (pr : Int) (hne : u ≠ p)
    (hres : linkBookStep st u rel pr = .ok st') : UntouchedP p st st' := by
  simp only [linkBookStep] at hres
  cases hl : st.storage.linkBook u rel pr with
  | error e => rw [hl] at hres; cases hres
  | ok s' =>
    rw [hl] at hres
    cases hres
    simp only [MemStorage.linkBook] at hl
    cases hu : lookupA st.storage.books u with
    | none => rw [hu] at hl; cases hl
    | some b =>
      rw [hu] at hl
      cases hr : lookupA st.storage.books rel with
      | none =>
        rw [hr] at hl
        cases hl
        exact untouchedP_refl p st
      | some x =>
        rw [hr] at hl
        cases hl
        refine ⟨?_, rfl⟩
        simp only
        rw [lookupA_setA_ne _ _ _ _ hne]

/-- A recursive-crawl function that, whenever vertex `p` is already
fenced (`start < When(p)`), leaves `p` untouched. -/
def RecUntouched (start : Nat) (p : String)
    (recur : String → Nat → Nat → RunState → Except Err RunState) : Prop :=
  ∀ u d i st st', start < (st.storage.getBookState p).when →
    recur u d i st = .ok st' → UntouchedP p st st'

theorem crawlChildren_untouched
    (recur : String → Nat → Nat → RunState → Except Err RunState)
    (start : Nat) (p : String) (hrec : RecUntouched start p recur)
    (bookURL : String) (hbu : bookURL ≠ p) (depth : Nat) :
    ∀ (l : List (Nat × String)) (st st' : RunState),
      start < (st.storage.getBookState p).when →
      crawlChildren recur bookURL depth l st = .ok st' →
      UntouchedP p st st' := by
  intro l
  induction l with
  | nil =>
    intro st st' _ hres
    simp only [crawlChildren] at hres
    cases hres
    exact untouchedP_refl p st
  | cons hd tl ih =>
    intro st st' hfence hres
    obtain ⟨idx, linkURL⟩ := hd
    simp only [crawlChildren] at hres
    cases hr : recur linkURL (depth + 1) idx st with
    | error e => rw [hr] at hres; cases hres
    | ok st1 =>
      rw [hr] at hres
      dsimp only at hres
      have h1 := hrec linkURL (depth + 1) idx st st1 hfence hr
      have hf1 : start < (st1.storage.getBookState p).when := by
        rw [h1.2]; exact hfence
      cases hl : linkBookStep st1 bookURL linkURL (idx : Int) with
      | error e => rw [hl] at hres; cases hres
      | ok st2 =>
        rw [hl] at hres
        dsimp only at hres
        have h2 := untouched_linkBookStep st1 st2 bookURL linkURL p
          (idx : Int) hbu hl
        have hf2 : start < (st2.storage.getBookState p).when := by
          rw [h2.2]; exact hf1
        exact untouchedP_trans (untouchedP_trans h1 h2)
          (ih st2 st' hf2 hres)

theorem crawlAlsoRead_untouched (cfg : Crawler) (w : World)
    (recur : String → Nat → Nat → RunState → Except Err RunState)
    (start : Nat) (p : String) (hrec : RecUntouched start p recur)
    (bookURL similarBooksURL : String) (hbu : bookURL ≠ p) (depth : Nat)
    (st st' : RunState)
    (hfence : start < (st.storage.getBookState p).when)
    (hres : crawlAlsoRead cfg w recur bookURL similarBooksURL depth st =
      .ok st') : UntouchedP p st st' := by
  simp only [crawlAlsoRead] at hres
  cases hsim : w.similar similarBooksURL with
  | none => rw [hsim] at hres; cases hres
  | some anchors =>
    rw [hsim] at hres
    dsimp only at hres
    exact crawlChildren_untouched recur start p hrec bookURL hbu depth _
      st st' hfence hres

theorem handleCrawledDoc_untouched (cfg : Crawler) (w : World)
    (recur : String → Nat → Nat → RunState → Except Err RunState)
    (start : Nat) (p u : String) (hrec : RecUntouched start p recur)
    (hne : u ≠ p) (prevState : StateChange) (depth : Nat)
    (st st' : RunState)
    (hfence : start < (st.storage.getBookState p).when) (doc : Doc)
    (hres : handleCrawledDoc cfg w recur u prevState depth st doc =
      .ok st') : UntouchedP p st st' := by
  simp only [handleCrawledDoc] at hres
  cases hhref : doc.alsoReadHref with
  | none => rw [hhref] at hres; cases hres
  | some href =>
    rw [hhref] at hres
    dsimp only at hres
    cases hrv : w.resolve u href with
    | none => rw [hrv] at hres; cases hres
    | some alsoReadLink =>
      rw [hrv] at hres
      dsimp only at hres
      have hkids : ∀ (st1 : RunState),
          (if (depth : Int) < cfg.maxDepth then
            crawlAlsoRead cfg w recur u alsoReadLink depth st
          else .ok st) = .ok st1 → UntouchedP p st st1 := by
        intro st1 hif
        by_cases hdp : (depth : Int) < cfg.maxDepth
        · rw [if_pos hdp] at hif
          exact crawlAlsoRead_untouched cfg w recur start p hrec u
            alsoReadLink hne depth st st1 hfence hif
        · rw [if_neg hdp] at hif
          cases hif
          exact untouchedP_refl p st
      cases hk : (if (depth : Int) < cfg.maxDepth then
          crawlAlsoRead cfg w recur u alsoReadLink depth st
        else .ok st) with
      | error e => rw [hk] at hres; cases hres
      | ok st1 =>
        rw [hk] at hres
        dsimp only at hres
        have h1 := hkids st1 hk
        rcases hcs : casStep st1 u prevState .linked with ⟨st2, sc2, b⟩
        rw [hcs] at hres
        cases b with
        | false => cases hres
        | true =>
          cases hres
          have h2 := untouched_casStep st1 u p prevState .linked hne
          rw [hcs] at h2
          exact untouchedP_trans h1 h2

theorem handleCrawled_untouched (cfg : Crawler) (w : World)
    (recur : String → Nat → Nat → RunState → Except Err RunState)
    (start : Nat) (p u : String) (hrec : RecUntouched start p recur)
    (hne : u ≠ p) (prevState : StateChange) (depth index : Nat)
    (st st' : RunState)
    (hfence : start < (st.storage.getBookState p).when)
    (doc? : Option Doc)
    (hres : handleCrawled cfg w start recur u prevState depth index st
      doc? = .ok st') : UntouchedP p st st' := by
  simp only [handleCrawled] at hres
  cases doc? with
  | some d =>
    exact handleCrawledDoc_untouched cfg w recur start p u hrec hne
      prevState depth st st' hfence d hres
  | none =>
    cases hp : w.pages u with
    | none => rw [hp] at hres; cases hres
    | some d =>
      rw [hp] at hres
      exact handleCrawledDoc_untouched cfg w recur start p u hrec hne
        prevState depth st st' hfence d hres

theorem handleNotCrawled_untouched (cfg : Crawler) (w : World)
    (recur : String → Nat → Nat → RunState → Except Err RunState)
    (start : Nat) (p u : String) (hrec : RecUntouched start p recur)
    (hne : u ≠ p) (prevState : StateChange) (depth index : Nat)
    (st st' : RunState)
    (hfence : start < (st.storage.getBookState p).when)
    (hres : handleNotCrawled cfg w start recur u prevState depth index st =
      .ok st') : UntouchedP p st st' := by
  simp only [handleNotCrawled] at hres
  split at hres
  · cases hres
  · rename_i doc hp
    split at hres
    · cases hres
      exact untouchedP_refl p st
    · split at hres
      · rename_i st2 sc hcs
        have h1 := untouched_setBookStep st u p (buildBook u doc.attrs) hne
        have h2 := untouched_casStep (setBookStep st u (buildBook u doc.attrs))
          u p prevState .crawled hne
        rw [hcs] at h2
        have h12 := untouchedP_trans h1 h2
        have h23 : UntouchedP p st2 { st2 with crawled := st2.crawled + 1 } :=
          untouchedP_refl p _
        have hf2 : start <
            (({ st2 with crawled := st2.crawled + 1 } :
              RunState).storage.getBookState p).when := by
          have : ({ st2 with crawled := st2.crawled + 1 } :
              RunState).storage = st2.storage := rfl
          rw [this, h2.2, h1.2]
          exact hfence
        have h3 := handleCrawled_untouched cfg w recur start p u hrec hne
          sc depth index _ st' hf2 (some doc) hres
        exact untouchedP_trans (untouchedP_trans h12 h23) h3
      · cases hres

theorem linkedChildren_untouched
    (recur : String → Nat → Nat → RunState → Except Err RunState)
    (start : Nat) (p : String) (hrec : RecUntouched start p recur)
    (depth : Nat) :
    ∀ (l : List (Nat × Edge)) (st st' : RunState),
      start < (st.storage.getBookState p).when →
      linkedChildren recur depth l st = .ok st' → UntouchedP p st st' := by
  intro l
  induction l with
  | nil =>
    intro st st' _ hres
    simp only [linkedChildren] at hres
    cases hres
    exact untouchedP_refl p st
  | cons hd tl ih =>
    intro st st' hfence hres
    obtain ⟨idx, e⟩ := hd
    simp only [linkedChildren] at hres
    cases hr : recur e.toURL (depth + 1) idx st with
    | error err => rw [hr] at hres; cases hres
    | ok st1 =>
      rw [hr] at hres
      dsimp only at hres
      have h1 := hrec e.toURL (depth + 1) idx st st1 hfence hr
      have hf1 : start < (st1.storage.getBookState p).when := by
        rw [h1.2]; exact hfence
      exact untouchedP_trans h1 (ih st1 st' hf1 hres)

theorem handlePreviouslyLinked_untouched
    (recur : String → Nat → Nat → RunState → Except Err RunState)
    (start : Nat) (p u : String) (hrec : RecUntouched start p recur)
    (prevState : StateChange) (depth index : Nat) (st st' : RunState)
    (hfence : start < (st.storage.getBookState p).when)
    (hres : handlePreviouslyLinked recur u prevState depth index st =
      .ok st') : UntouchedP p st st' := by
  simp only [handlePreviouslyLinked] at hres
  cases hb : st.storage.getBook u with
  | none => rw [hb] at hres; cases hres
  | some b =>
    rw [hb] at hres
    dsimp only at hres
    exact linkedChildren_untouched recur start p hrec depth _ st st'
      hfence hres

/-- A `crawl` invocation never modifies a vertex already fenced for the
current run: if `start < When(p)` then `p`'s stored book (and so its edge
list) and its `StateChange` are exactly preserved — the `crawl` of `p`
itself returns at the fence, and every storage write of the subtree is
keyed by some other URL. -/
theorem crawlGo_untouched (cfg : Crawler) (w : World) (start : Nat)
    (p : String) :
    ∀ (fuel : Nat), RecUntouched start p (crawlGo cfg w start fuel) := by
  intro fuel
  induction fuel with
  | zero =>
    intro u d i st st' _ hres
    simp only [crawlGo] at hres
    cases hres
  | succ fuel ih =>
    intro u d i st st' hfence hres
    simp only [crawlGo] at hres
    by_cases hd : (d : Int) > cfg.maxDepth
    · rw [if_pos hd] at hres
      cases hres
      exact untouchedP_refl p st
    · rw [if_neg hd] at hres
      by_cases hup : u = p
      · subst hup
        rw [if_pos hfence] at hres
        cases hres
        exact untouchedP_refl _ st
      · by_cases hfu : start < (st.storage.getBookState u).when
        · rw [if_pos hfu] at hres
          cases hres
          exact untouchedP_refl p st
        · rw [if_neg hfu] at hres
          have hbase : UntouchedP p st
              { st with checked := st.checked + 1 } := untouchedP_refl p st
          have hfc : start <
              (({ st with checked := st.checked + 1 } :
                RunState).storage.getBookState p).when := hfence
          by_cases hc : (st.storage.getBookState u).state = State.crawled
          · rw [if_pos hc] at hres
            rcases hcs : casStep { st with checked := st.checked + 1 } u
              (st.storage.getBookState u) .crawled with ⟨st2, sc2, b⟩
            rw [hcs] at hres
            cases b with
            | false =>
              cases hres
              have hid := casStep_false_id _ _ _ _ _ _ hcs
              subst hid
              exact untouchedP_refl p st
            | true =>
              dsimp only at hres
              have h2 := untouched_casStep
                { st with checked := st.checked + 1 } u p
                (st.storage.getBookState u) .crawled hup
              rw [hcs] at h2
              have hf2 : start < (st2.storage.getBookState p).when := by
                rw [h2.2]; exact hfence
              exact untouchedP_trans h2
                (handleCrawled_untouched cfg w _ start p u ih hup sc2 d i
                  st2 st' hf2 none hres)
          · rw [if_neg hc] at hres
            by_cases hlk : (st.storage.getBookState u).state = State.linked
            · rw [if_pos hlk] at hres
              rcases hcs : casStep { st with checked := st.checked + 1 } u
                (st.storage.getBookState u) .linked with ⟨st2, sc2, b⟩
              rw [hcs] at hres
              cases b with
              | false =>
                cases hres
                have hid := casStep_false_id _ _ _ _ _ _ hcs
                subst hid
                exact untouchedP_refl p st
              | true =>
                dsimp only at hres
                have h2 := untouched_casStep
                  { st with checked := st.checked + 1 } u p
                  (st.storage.getBookState u) .linked hup
                rw [hcs] at h2
                have hf2 : start < (st2.storage.getBookState p).when := by
                  rw [h2.2]; exact hfence
                exact untouchedP_trans h2
                  (handlePreviouslyLinked_untouched _ start p u ih sc2 d i
                    st2 st' hf2 hres)
            · rw [if_neg hlk] at hres
              rcases hcs : casStep { st with checked := st.checked + 1 } u
                (st.storage.getBookState u) .beingCrawled with ⟨st2, sc2, b⟩
              rw [hcs] at hres
              cases b with
              | false =>
                cases hres
                have hid := casStep_false_id _ _ _ _ _ _ hcs
                subst hid
                exact untouchedP_refl p st
              | true =>
                dsimp only at hres
                have h2 := untouched_casStep
                  { st with checked := st.checked + 1 } u p
                  (st.storage.getBookState u) .beingCrawled hup
                rw [hcs] at h2
                have hf2 : start < (st2.storage.getBookState p).when := by
                  rw [h2.2]; exact hfence
                exact untouchedP_trans h2
                  (handleNotCrawled_untouched cfg w _ start p u ih hup sc2
                    d i st2 st' hf2 hres)

/-- The edge-priority invariant of vertex `p` while its child loop is at
sibling index `k`: `p` has a stored book whose edge priorities are
pairwise distinct and all lie in `[0, k)`. -/
def EdgesOK (s : MemStorage) (p : String) (k : Nat) : Prop :=
  ∃ b, lookupA s.books p = some b
    ∧ (b.alsoRead.map Edge.priority).Nodup
    ∧ ∀ e ∈ b.alsoRead, 0 ≤ e.priority ∧ e.priority < (k : Int)

theorem edgesOK_mono {s : MemStorage} {p : String} {k k' : Nat}
    (hkk : k ≤ k') (h : EdgesOK s p k) : EdgesOK s p k' := by
  obtain ⟨b, hb, hnd, hbound⟩ := h
  refine ⟨b, hb, hnd, ?_⟩
  intro e he
  obtain ⟨h0, h1⟩ := hbound e he
  exact ⟨h0, lt_of_lt_of_le h1 (by exact_mod_cast hkk)⟩

theorem edgesOK_of_untouched {p : String} {st st' : RunState} {k : Nat}
    (hu : UntouchedP p st st') (h : EdgesOK st.storage p k) :
    EdgesOK st'.storage p k := by
  obtain ⟨b, hb, hnd, hbound⟩ := h
  exact ⟨b, hu.1.trans hb, hnd, hbound⟩

theorem linkBookStep_state (st st' : RunState) (u rel : String) (pr : Int)
    (hres : linkBookStep st u rel pr = .ok st') :
    st'.storage.state = st.storage.state := by
  simp only [linkBookStep] at hres
  cases hl : st.storage.linkBook u rel pr with
  | error e => rw [hl] at hres; cases hres
  | ok s' =>
    rw [hl] at hres
    cases hres
    simp only [MemStorage.linkBook] at hl
    cases hu : lookupA st.storage.books u with
    | none => rw [hu] at hl; cases hl
    | some b =>
      rw [hu] at hl
      cases hr : lookupA st.storage.books rel with
      | none => rw [hr] at hl; cases hl; rfl
      | some x => rw [hr] at hl; cases hl; rfl

theorem edgesOK_linkBookStep (st st' : RunState) (p rel : String) (k : Nat)
    (hok : EdgesOK st.storage p k)
    (hres : linkBookStep st p rel (k : Int) = .ok st') :
    EdgesOK st'.storage p (k + 1) := by
  obtain ⟨b, hb, hnd, hbound⟩ := hok
  simp only [linkBookStep] at hres
  cases hl : st.storage.linkBook p rel (k : Int) with
  | error e => rw [hl] at hres; cases hres
  | ok s' =>
    rw [hl] at hres
    cases hres
    simp only [MemStorage.linkBook] at hl
    rw [hb] at hl
    cases hr : lookupA st.storage.books rel with
    | none =>
      rw [hr] at hl
      cases hl
      exact edgesOK_mono (Nat.le_succ k) ⟨b, hb, hnd, hbound⟩
    | some x =>
      rw [hr] at hl
      cases hl
      refine ⟨_, by simpa using lookupA_setA_self st.storage.books p _, ?_, ?_⟩
      · have hperm : List.Perm
            (sortEdges (b.alsoRead ++
              [{ fromURL := p, toURL := rel, priority := (k : Int) }]))
            (b.alsoRead ++
              [{ fromURL := p, toURL := rel, priority := (k : Int) }]) :=
          List.perm_insertionSort _ _
        refine ((hperm.map Edge.priority).nodup_iff).mpr ?_
        rw [List.map_append]
        refine List.Nodup.append hnd (by simp) ?_
        intro q hq hq2
        simp only [List.map_cons, List.map_nil, List.mem_singleton] at hq2
        subst hq2
        rcases List.mem_map.mp hq with ⟨e, he, hpe⟩
        have := (hbound e he).2
        rw [hpe] at this
        exact absurd this (by simp)
      · intro e he
        have hperm : List.Perm
            (sortEdges (b.alsoRead ++
              [{ fromURL := p, toURL := rel, priority := (k : Int) }]))
            (b.alsoRead ++
              [{ fromURL := p, toURL := rel, priority := (k : Int) }]) :=
          List.perm_insertionSort _ _
        have hmem := hperm.mem_iff.mp he
        rcases List.mem_append.mp hmem with hm | hm
        · obtain ⟨h0, h1⟩ := hbound e hm
          refine ⟨h0, lt_trans h1 (by exact_mod_cast Nat.lt_succ_self k)⟩
        · rcases List.mem_singleton.mp hm with rfl
          constructor
          · simp
          · show (k : Int) < ((k + 1 : Nat) : Int)
            exact_mod_cast Nat.lt_succ_self k

theorem crawlChildren_prios (cfg : Crawler) (w : World) (start fuel : Nat)
    (p : String) (depth : Nat) :
    ∀ (urls : List String) (k : Nat) (st st' : RunState),
      start < (st.storage.getBookState p).when →
      EdgesOK st.storage p k →
      crawlChildren (crawlGo cfg w start fuel) p depth
        (List.enumFrom k urls) st = .ok st' →
      EdgesOK st'.storage p (k + urls.length)
      ∧ start < (st'.storage.getBookState p).when := by
  intro urls
  induction urls with
  | nil =>
    intro k st st' hfence hok hres
    simp only [List.enumFrom, crawlChildren] at hres
    cases hres
    exact ⟨by simpa using hok, hfence⟩
  | cons u rest ih =>
    intro k st st' hfence hok hres
    simp only [List.enumFrom, crawlChildren] at hres
    cases hr : crawlGo cfg w start fuel u (depth + 1) k st with
    | error e => rw [hr] at hres; cases hres
    | ok st1 =>
      rw [hr] at hres
      dsimp only at hres
      have h1 := crawlGo_untouched cfg w start p fuel u (depth + 1) k st
        st1 hfence hr
      have hf1 : start < (st1.storage.getBookState p).when := by
        rw [h1.2]; exact hfence
      have hok1 := edgesOK_of_untouched h1 hok
      cases hl : linkBookStep st1 p u (k : Int) with
      | error e => rw [hl] at hres; cases hres
      | ok st2 =>
        rw [hl] at hres
        dsimp only at hres
        have hok2 := edgesOK_linkBookStep st1 st2 p u k hok1 hl
        have hf2 : start < (st2.storage.getBookState p).when := by
          have hst := linkBookStep_state st1 st2 p u (k : Int) hl
          simp only [MemStorage.getBookState, hst]
          exact hf1
        have := ih (k + 1) st2 st' hf2 hok2 hres
        refine ⟨?_, this.2⟩
        have h := this.1
        have harith : k + 1 + rest.length = k + (rest.length + 1) := by omega
        rw [harith] at h
        simpa using h

/-- Seed `A` of the filter-gap scenario. -/
def c3A : String := "/book/show/A"

/-- Child `B` (rating 350, dropped by the filter). -/
def c3B : String := "/book/show/B"

/-- Child `C` (rating 500, kept). -/
def c3C : String := "/book/show/C"

/-- The world of the filter-gap scenario: `A`'s related list is `[B, C]`,
`B` falls below the `MinRating = 400` filter. -/
def c3world : World :=
  { pages := fun u =>
      if u = c3A then
        some { attrs := { rating := 500 }, alsoReadHref := some "simA" }
      else if u = c3B then
        some { attrs := { rating := 350 }, alsoReadHref := some "simB" }
      else if u = c3C then
        some { attrs := { rating := 500 }, alsoReadHref := some "simC" }
      else none
    similar := fun s =>
      if s = "simA" then some [{ href := some c3B }, { href := some c3C }]
      else none
    resolve := fun _ href => some href }

/-- The crawler of the filter-gap scenario: `MaxDepth = 1`,
`MinRating = 400`. -/
def c3cfg : Crawler := { maxDepth := 1, minRating := 400 }

/-- The complete run of the filter-gap scenario. -/
def c3run : Except Err RunState := CrawlRun c3cfg c3world c3A MemStorage.empty 0

/-- C3: the claim states stored priorities are dense (`0..k-1`) even when
some children were dropped by the filter.  Refutation: with `A`'s related
list `[B, C]` and `B` dropped by the `MinRating` filter, `B` consumes
sibling index 0 but produces no edge (the parent's `LinkBook` silently
no-ops on the missing book), so `A` ends with the single edge
`A → C [priority 1]`: priority 0 is missing although the edge list is
nonempty — not a permutation of `0..k-1` for any `k`. -/
theorem C3_counterexample :
    crawlEdgesOf c3run c3A =
      some [{ fromURL := c3A, toURL := c3C, priority := 1 }]
    ∧ crawlStateOf c3run c3B =
        some { when := 3, state := .beingCrawled }
    ∧ (0 : Int) ∉ ((crawlEdgesOf c3run c3A).getD []).map Edge.priority
    ∧ ((crawlEdgesOf c3run c3A).getD []).map Edge.priority ≠ [] := by
  refine ⟨by decide, by decide, by decide, by decide⟩

/-- C3 (amended): URLs skipped during extraction (no `href`, bad URL, or
not a `/book/show/` URL) are removed before sibling indices are assigned,
so the extracted list is the filtered anchors truncated to `MaxReadAlso`
(hence at most `MaxReadAlso` long) and skipped URLs consume no index.  The
priorities stored on a vertex during its child loop are pairwise distinct
values in `0..k-1` where `k` is the number of extracted children — but a
child dropped by the ratings filter (or otherwise absent from storage)
consumes its index without producing an edge, so the stored priorities are
a subset of `0..k-1` that need not be gap-free. -/
theorem C3_theorem :
    (∀ (resolve : String → Option String) (k : Nat)
        (anchors : List Anchor),
      extractRelatedURLs resolve (k : Int) anchors =
        (anchors.filterMap (anchorPass resolve)).take k
      ∧ (extractRelatedURLs resolve (k : Int) anchors).length ≤ k)
    ∧ (∀ (cfg : Crawler) (w : World) (start fuel : Nat)
        (p simURL : String) (depth : Nat) (st st' : RunState)
        (anchors : List Anchor),
        w.similar simURL = some anchors →
        start < (st.storage.getBookState p).when →
        EdgesOK st.storage p 0 →
        crawlAlsoRead cfg w (crawlGo cfg w start fuel) p simURL depth st =
          .ok st' →
        ∃ b, lookupA st'.storage.books p = some b
          ∧ (b.alsoRead.map Edge.priority).Nodup
          ∧ ∀ e ∈ b.alsoRead, 0 ≤ e.priority ∧ e.priority <
              ((extractRelatedURLs (w.resolve simURL) cfg.maxReadAlso
                anchors).length : Int)) := by
  constructor
  · intro resolve k anchors
    exact ⟨extract_eq_take resolve k anchors,
      extract_length_le resolve k anchors⟩
  · intro cfg w start fuel p simURL depth st st' anchors hsim hfence hok
      hres
    simp only [crawlAlsoRead] at hres
    rw [hsim] at hres
    dsimp only at hres
    have henum : (extractRelatedURLs (w.resolve simURL) cfg.maxReadAlso
        anchors).enum = List.enumFrom 0
          (extractRelatedURLs (w.resolve simURL) cfg.maxReadAlso anchors) :=
      rfl
    rw [henum] at hres
    have := crawlChildren_prios cfg w start fuel p depth
      (extractRelatedURLs (w.resolve simURL) cfg.maxReadAlso anchors) 0
      st st' hfence hok hres
    obtain ⟨⟨b, hb, hnd, hbound⟩, _⟩ := this
    refine ⟨b, hb, hnd, ?_⟩
    intro e he
    have := hbound e he
    simpa using this

/-- Storage holding parent `P`: a stored book with no edges, claimed in
the current run (`When = 1 > start`). -/
def c3wmem : MemStorage :=
  { books := [("P", Book.new "P")], state := [("P", { when := 1, state := .crawled })] }

/-- A parent `P` already claimed in the current run, with a stored book
and no edges yet. -/
def c3wst : RunState :=
  { storage := c3wmem, clock := 2, checked := 0, crawled := 0, trace := [] }

/-- A world whose similar-books page for `P` lists a single valid child
that is never stored (the crawler is run with `MaxDepth = 0`, so the child
is depth-gated). -/
def c3wworld : World :=
  { pages := fun _ => none
    similar := fun s =>
      if s = "simP" then some [{ href := some "/book/show/Q" }] else none
    resolve := fun _ href => some href }

/-- The crawler for the witness scenario: `MaxDepth = 0`. -/
def c3wcfg : Crawler := { maxDepth := 0 }

/-- C3 witness: the extraction characterization at a two-anchor list with
`MaxReadAlso = 1`, and the child-loop priority bound at the concrete
`P`-with-one-child scenario. -/
theorem C3_witness :
    (extractRelatedURLs (fun h => some h) ((1 : Nat) : Int)
        [{ href := some "/book/show/x" }, { href := some "/book/show/y" }] =
      ([{ href := some "/book/show/x" },
        { href := some "/book/show/y" }].filterMap
          (anchorPass (fun h => some h))).take 1
      ∧ (extractRelatedURLs (fun h => some h) ((1 : Nat) : Int)
          [{ href := some "/book/show/x" },
           { href := some "/book/show/y" }]).length ≤ 1)
    ∧ ∃ b, lookupA ({ c3wst with
          trace := c3wst.trace ++ [c3wst.storage] } :
            RunState).storage.books "P" = some b
        ∧ (b.alsoRead.map Edge.priority).Nodup
        ∧ ∀ e ∈ b.alsoRead, 0 ≤ e.priority ∧ e.priority <
            ((extractRelatedURLs (c3wworld.resolve "simP")
              c3wcfg.maxReadAlso
              [{ href := some "/book/show/Q" }]).length : Int) := by
  constructor
  · exact C3_theorem.1 (fun h => some h) 1 _
  · exact C3_theorem.2 c3wcfg c3wworld 0 1 "P" "simP" 0 c3wst _ _ rfl
      (by decide) ⟨Book.new "P", by decide, by decide, by decide⟩ rfl

end BookCrawler
